import Mathlib

/-!
# Verification of the root-policy-status controller

Shallow embedding of `controllers/rootpolicystatus/root_policy_status_controller.go`
from the governance-policy-propagator repository, together with proofs about the
decision-set builder (`getAllClusterDecisions`), the binding resolver
(`getPolicyPlacementDecisions`), the per-target status aggregator
(`calculatePerClusterStatus`) and the status writer (`rootStatusUpdate`).

The Kubernetes client (`r.Get`, `r.List`, `r.Status().Update`) and the external
collaborators (`common.GetDecisions`, `propagator.CalculateRootCompliance`) are
modelled as an explicit environment record of pure functions; a `Get` call can
succeed, report not-found, or fail with another error, matching the three-way
distinction the Go code makes via `k8serrors.IsNotFound`.
-/

namespace RootPolicyStatus

/-- `types.NamespacedName`. -/
structure NamespacedName where
  ns : String
  name : String
deriving DecidableEq, Repr

/-- `appsv1.PlacementDecision`: the identity of one candidate target cluster. -/
structure PlacementDecision where
  clusterName : String
  clusterNamespace : String
deriving DecidableEq, Repr

/-- `policiesv1.Placement`: one placement-provenance record in the root status.
Fields default to the Go zero value `""`. -/
structure Placement where
  placementBinding : String := ""
  policySet : String := ""
  placementRule : String := ""
  placement : String := ""
deriving DecidableEq, Repr

/-- `policiesv1.BindingOverrides`. -/
structure BindingOverrides where
  remediationAction : String := ""
deriving DecidableEq, Repr

/-- `policiesv1.Subject` of a PlacementBinding. -/
structure Subject where
  apiGroup : String
  kind : String
  name : String
deriving DecidableEq, Repr

/-- `pb.PlacementRef`: the grouping-object reference of a binding. -/
structure PlacementRef where
  apiGroup : String
  kind : String
  name : String
deriving DecidableEq, Repr

/-- `policiesv1.PlacementBinding`.  `subFilter` is the Go string field; the empty
string is the unrestricted default and `"restricted"` (`policiesv1.Restricted`)
selects the pass-2 filter semantics. -/
structure PlacementBinding where
  name : String
  ns : String
  subjects : List Subject
  placementRef : PlacementRef
  subFilter : String := ""
  bindingOverrides : BindingOverrides := {}
deriving DecidableEq, Repr

/-- The root `policiesv1.Policy`: only the fields this controller reads. -/
structure Policy where
  name : String
  ns : String
  disabled : Bool
deriving DecidableEq, Repr

/-- `policiesv1.CompliancePerClusterStatus`. -/
structure CompliancePerClusterStatus where
  complianceState : String
  clusterName : String
  clusterNamespace : String
deriving DecidableEq, Repr

/-- Outcome of a Kubernetes `Get`: success with the data the controller reads,
a not-found error, or any other error (carrying its message). -/
inductive GetResult (α : Type) where
  | found : α → GetResult α
  | notFound : GetResult α
  | err : String → GetResult α
deriving DecidableEq, Repr

/-- `policiesv1.Restricted`. -/
def Restricted : String := "restricted"

/-- `policiesv1.SchemeGroupVersion.Group`. -/
def policyGroup : String := "policy.open-cluster-management.io"

/-- `policiesv1.Kind`. -/
def policyKind : String := "Policy"

/-- `policiesv1.PolicySetKind`. -/
def policySetKind : String := "PolicySet"

/-- `string(policiesv1.Enforce)`. -/
def enforceStr : String := "Enforce"

/-- `strings.ToLower`, modelled (adequately for the ASCII tokens compared in
this controller) as a character-wise lower-casing of the string. -/
def strLower (s : String) : String := ⟨s.data.map Char.toLower⟩

/-- `strings.EqualFold`, modelled (adequately for the ASCII tokens compared
here) as equality after `strings.ToLower`. -/
def eqFold (s t : String) : Bool := strLower s == strLower t

/-- Lexicographic "less than" on character lists: the order underlying Go's
`<` on strings (byte-wise lexicographic; code-point-wise here). -/
def lexLt : List Char → List Char → Bool
  | _, [] => false
  | [], _ :: _ => true
  | a :: as, b :: bs => if a < b then true else if a = b then lexLt as bs else false

/-- Go string `<` (used as the `sort.Slice` comparator). -/
def strLt (a b : String) : Bool := lexLt a.data b.data

/-- The nonstrict order induced by the `sort.Slice` comparator: `a ≤ b` iff
`¬(b < a)`. -/
def strLe (a b : String) : Bool := !(strLt b a)

/-- The read-only state of the cluster as seen by the reconciler's client,
plus the decision-lookup collaborator.
* `getPlacementRule nn` / `getPlacement nn`: `r.Get` of the grouping object;
  the found value is the only field the controller reads, the object's `Name`.
* `getPolicySet nn`: `r.Get` of a `PolicySet`; the found value is
  `policySet.Spec.Policies` as a list of policy names.
* `getReplicatedPolicy nn`: `r.Get` of a replicated `Policy`; the found value is
  `replicatedPolicy.Status.ComplianceState`.
* `getDecisionsFor pb`: `common.GetDecisions(r.Client, pb)` (an external
  collaborator of this file's source), returning the resolved targets or an
  error. -/
structure K8sEnv where
  getPlacementRule : NamespacedName → GetResult String
  getPlacement : NamespacedName → GetResult String
  getPolicySet : NamespacedName → GetResult (List String)
  getReplicatedPolicy : NamespacedName → GetResult String
  getDecisionsFor : PlacementBinding → Except String (List PlacementDecision)

/-- Modelled from the spec: `common.HasValidPlacementRef` is called by the
source but its definition is not under `src/`.  Per the spec (§4.1, §9) the
binding's `placementRef` must name one of the two supported grouping kinds,
`PlacementRule` or `Placement`, with the matching API group, and anything else
is an invalid binding reference. -/
def hasValidPlacementRef (pb : PlacementBinding) : Bool :=
  (pb.placementRef.kind == "PlacementRule"
      && pb.placementRef.apiGroup == "apps.open-cluster-management.io")
    || (pb.placementRef.kind == "Placement"
      && pb.placementRef.apiGroup == "cluster.open-cluster-management.io")

/-- `isPolicyInPolicySet`: any `Get` error (not-found included) is treated as
"not a member"; otherwise the policy name is searched in
`policySet.Spec.Policies`. -/
def isPolicyInPolicySet (env : K8sEnv) (policyName policySetName nsp : String) : Bool :=
  match env.getPolicySet ⟨nsp, policySetName⟩ with
  | .found policies => policies.contains policyName
  | .notFound => false
  | .err _ => false

/-- The subject loop of `getPolicyPlacementDecisions` (lines 170–199): iterate
the binding's subjects, carrying the accumulated placements, the
`policySubjectFound` flag and the `policySetSubjects` dedup set. -/
def subjectStep (env : K8sEnv) (inst : Policy) (pb : PlacementBinding)
    (acc : List Placement × Bool × List String) (subject : Subject) :
    List Placement × Bool × List String :=
  if subject.apiGroup ≠ policyGroup then acc
  else if subject.kind == policyKind then
    if !acc.2.1 && subject.name == inst.name then
      (acc.1 ++ [{ placementBinding := pb.name }], true, acc.2.2)
    else acc
  else if subject.kind == policySetKind then
    if acc.2.2.contains subject.name then acc
    else if isPolicyInPolicySet env inst.name subject.name pb.ns then
      (acc.1 ++ [{ placementBinding := pb.name, policySet := subject.name }],
        acc.2.1, acc.2.2 ++ [subject.name])
    else (acc.1, acc.2.1, acc.2.2 ++ [subject.name])
  else acc

/-- The placements produced by the subject loop of `getPolicyPlacementDecisions`. -/
def subjectPlacements (env : K8sEnv) (inst : Policy) (pb : PlacementBinding) :
    List Placement :=
  (pb.subjects.foldl (subjectStep env inst pb) ([], false, [])).1

/-- The `switch pb.PlacementRef.Kind` block of `getPolicyPlacementDecisions`
(lines 206–231): look up the referred grouping object by kind, tolerate
not-found by leaving the provenance field empty, abort on any other error. -/
def resolveGroupingRef (env : K8sEnv) (pb : PlacementBinding)
    (placements : List Placement) : Except String (List Placement) :=
  let refNN : NamespacedName := ⟨pb.ns, pb.placementRef.name⟩
  if pb.placementRef.kind == "PlacementRule" then
    match env.getPlacementRule refNN with
    | .err e => .error ("failed to check for PlacementRule: " ++ e)
    | .notFound => .ok (placements.map fun p => { p with placementRule := "" })
    | .found nm => .ok (placements.map fun p => { p with placementRule := nm })
  else if pb.placementRef.kind == "Placement" then
    match env.getPlacement refNN with
    | .err e => .error ("failed to check for Placement: " ++ e)
    | .notFound => .ok (placements.map fun p => { p with placement := "" })
    | .found nm => .ok (placements.map fun p => { p with placement := nm })
  else .ok placements

/-- `getPolicyPlacementDecisions` (the Binding Resolver, lines 163–246):
validate the placement reference, run the subject loop, resolve the grouping
object (not-found tolerated, field left empty), suppress decisions when the
policy is disabled, otherwise consult the decision-lookup collaborator. -/
def getPolicyPlacementDecisions (env : K8sEnv) (inst : Policy)
    (pb : PlacementBinding) :
    Except String (List PlacementDecision × List Placement) :=
  if ¬ hasValidPlacementRef pb then
    .error ("placement binding " ++ pb.name ++ "/" ++ pb.ns ++ " reference is not valid")
  else if (subjectPlacements env inst pb).isEmpty then .ok ([], [])
  else
    match resolveGroupingRef env pb (subjectPlacements env inst pb) with
    | .error e => .error e
    | .ok placements2 =>
      if placements2.isEmpty then .ok ([], [])
      else if inst.disabled then .ok ([], placements2)
      else
        match env.getDecisionsFor pb with
        | .error e => .error e
        | .ok ds => .ok (ds, placements2)

/-! ## Decision-Set Builder (`getAllClusterDecisions`, lines 252–343)

The Go `map[appsv1.PlacementDecision]policiesv1.BindingOverrides` is embedded
as an association list with first-match lookup; the code only ever inserts a
key it did not find, so keys stay unique, but the lemmas below do not rely on
that. -/

/-- The decision map of `getAllClusterDecisions`. -/
abbrev DecisionMap := List (PlacementDecision × BindingOverrides)

/-- Map lookup `decisions[decision]`. -/
def lookupDec : DecisionMap → PlacementDecision → Option BindingOverrides
  | [], _ => none
  | p :: m, d => if p.1 = d then some p.2 else lookupDec m d

/-- Map update `decisions[decision] = overrides` for a key already present. -/
def setDec (m : DecisionMap) (d : PlacementDecision) (ov : BindingOverrides) :
    DecisionMap :=
  m.map fun p => if p.1 = d then (d, ov) else p

/-- The keys of the decision map. -/
def decKeys (m : DecisionMap) : List PlacementDecision := m.map Prod.fst

/-- One iteration of the pass-1 merge loop (lines 275–289): a present key is
upgraded to `"enforce"` when the binding's override equals-fold `"Enforce"`,
an absent key is inserted with the binding's lower-cased override. -/
def mergeUnrestricted (pb : PlacementBinding) (m : DecisionMap)
    (d : PlacementDecision) : DecisionMap :=
  match lookupDec m d with
  | some _ =>
    if eqFold pb.bindingOverrides.remediationAction enforceStr then
      setDec m d ⟨strLower enforceStr⟩
    else m
  | none => m ++ [(d, ⟨strLower pb.bindingOverrides.remediationAction⟩)]

/-- One iteration of the pass-2 merge loop (lines 321–331): only keys already
present are touched (enforce-upgrade), and finding one sets the
`foundInDecisions` flag; an absent key changes nothing. -/
def mergeRestricted (pb : PlacementBinding) (acc : DecisionMap × Bool)
    (d : PlacementDecision) : DecisionMap × Bool :=
  match lookupDec acc.1 d with
  | some _ =>
    (if eqFold pb.bindingOverrides.remediationAction enforceStr then
        setDec acc.1 d ⟨strLower enforceStr⟩
      else acc.1, true)
  | none => acc

/-- Pass 1 of `getAllClusterDecisions` (lines 260–292): skip restricted
bindings, resolve each remaining one (fail-fast on error), merge its decisions,
and append its placements unconditionally. -/
def pass1 (env : K8sEnv) (inst : Policy) :
    List PlacementBinding → DecisionMap → List Placement →
    Except String (DecisionMap × List Placement)
  | [], m, pls => .ok (m, pls)
  | pb :: rest, m, pls =>
    if pb.subFilter == Restricted then pass1 env inst rest m pls
    else
      match getPolicyPlacementDecisions env inst pb with
      | .error e => .error e
      | .ok (ds, ps) =>
        pass1 env inst rest (ds.foldl (mergeUnrestricted pb) m) (pls ++ ps)

/-- Pass 2 of `getAllClusterDecisions` (lines 304–336): only restricted
bindings, fail-fast on resolver error, enforce-upgrade already-present keys,
and append the binding's placements only when it matched an existing key. -/
def pass2 (env : K8sEnv) (inst : Policy) :
    List PlacementBinding → DecisionMap → List Placement →
    Except String (DecisionMap × List Placement)
  | [], m, pls => .ok (m, pls)
  | pb :: rest, m, pls =>
    if pb.subFilter != Restricted then pass2 env inst rest m pls
    else
      match getPolicyPlacementDecisions env inst pb with
      | .error e => .error e
      | .ok (ds, ps) =>
        let step := ds.foldl (mergeRestricted pb) (m, false)
        pass2 env inst rest step.1 (if step.2 then pls ++ ps else pls)

/-- The comparison key order used by the two `sort.Slice` calls, generalized
over the sort key. -/
def keyLE {α : Type} (key : α → String) (a b : α) : Prop :=
  strLe (key a) (key b) = true

instance {α : Type} (key : α → String) : DecidableRel (keyLE key) :=
  fun a b => inferInstanceAs (Decidable (strLe (key a) (key b) = true))

/-- `sort.Slice(placements, less by PlacementBinding name)` (lines 295–297 and
338–340).  `sort.Slice` is an unspecified (unstable) comparison sort; the
embedding fixes a concrete comparison sort with the same comparator. -/
def sortPlacements (pls : List Placement) : List Placement :=
  List.insertionSort (keyLE Placement.placementBinding) pls

/-- `sort.Slice(status, less by ClusterName)` (lines 419–421). -/
def sortStatuses (l : List CompliancePerClusterStatus) :
    List CompliancePerClusterStatus :=
  List.insertionSort (keyLE CompliancePerClusterStatus.clusterName) l

/-- `getAllClusterDecisions` (lines 252–343): pass 1, the empty-map early
exit returning `nil` decisions (embedded as `[]`) with the sorted placements,
then pass 2 and the final sort. -/
def getAllClusterDecisions (env : K8sEnv) (inst : Policy)
    (pbs : List PlacementBinding) :
    Except String (DecisionMap × List Placement) :=
  match pass1 env inst pbs [] [] with
  | .error e => .error e
  | .ok (m, pls) =>
    if m.isEmpty then .ok ([], sortPlacements pls)
    else
      match pass2 env inst pbs m pls with
      | .error e => .error e
      | .ok (m2, pls2) => .ok (m2, sortPlacements pls2)

/-! ## Per-Target Status Aggregator (`calculatePerClusterStatus`, lines 381–424) -/

/-- The replica lookup key of `calculatePerClusterStatus` (lines 394–396):
`{Namespace: dec.ClusterNamespace, Name: instance.Namespace + "." + instance.Name}`. -/
def replicaKey (inst : Policy) (dec : PlacementDecision) : NamespacedName :=
  ⟨dec.clusterNamespace, inst.ns ++ "." ++ inst.name⟩

/-- One iteration of the aggregation loop (lines 392–417).  On not-found an
entry with the zero compliance state is appended and no error recorded; on any
other error `lookupErr` is overwritten and the loop falls through to append an
entry with the zero-valued replica's compliance state (`""`); on success the
fetched compliance state is appended. -/
def perClusterStep (env : K8sEnv) (inst : Policy)
    (acc : List CompliancePerClusterStatus × Option String)
    (dec : PlacementDecision) :
    List CompliancePerClusterStatus × Option String :=
  match env.getReplicatedPolicy (replicaKey inst dec) with
  | .notFound => (acc.1 ++ [⟨"", dec.clusterName, dec.clusterNamespace⟩], acc.2)
  | .err e => (acc.1 ++ [⟨"", dec.clusterName, dec.clusterNamespace⟩], some e)
  | .found st => (acc.1 ++ [⟨st, dec.clusterName, dec.clusterNamespace⟩], acc.2)

/-- `calculatePerClusterStatus` (lines 381–424).  The Go decision set is a map
whose iteration order is unspecified; the embedding receives it as a list in
an arbitrary order. -/
def calculatePerClusterStatus (env : K8sEnv) (inst : Policy)
    (decisions : List PlacementDecision) :
    List CompliancePerClusterStatus × Option String :=
  if inst.disabled then ([], none)
  else
    let r := decisions.foldl (perClusterStep env inst) ([], none)
    (sortStatuses r.1, r.2)

/-! ## Root Status Writer (`getDecisions` and `rootStatusUpdate`, lines 121–158
and 348–379) -/

/-- The environment of the writer: the client state plus the binding list of
the root policy's namespace (`r.List`, line 358), the mid-cycle refresh of the
root object (line 135), the outcome of `r.Status().Update` (line 152) and the
external `propagator.CalculateRootCompliance` collaborator (line 149). -/
structure WriterEnv extends K8sEnv where
  listBindings : Except String (List PlacementBinding)
  refreshRoot : GetResult Policy
  updateStatusResult : Option String
  calcRootCompliance : List CompliancePerClusterStatus → String

/-- `getDecisions` (lines 348–379): list the bindings of the namespace, run the
builder, and flatten the decision map to its key set (the Go
`decisionSet`). -/
def getDecisions (env : WriterEnv) (inst : Policy) :
    List Placement × List PlacementDecision × Option String :=
  match env.listBindings with
  | .error e => ([], [], some e)
  | .ok pbs =>
    match getAllClusterDecisions env.toK8sEnv inst pbs with
    | .error e => ([], [], some e)
    | .ok (m, pls) => (pls, decKeys m, none)

/-- The status fields written by `rootStatusUpdate` (lines 148–150). -/
structure RootStatus where
  status : List CompliancePerClusterStatus
  complianceState : String
  placement : List Placement
deriving DecidableEq, Repr

/-- `rootStatusUpdate` (lines 121–158), returning the list of attempted status
writes and the result.  A `getDecisions` failure returns the fixed message
`"could not get the placement decisions"` with no write; an aggregator error is
only logged; the mid-cycle refresh of the root object (lines 135–142) only
affects object metadata not modelled here (the status fields written are
computed from the builder and aggregator outputs alone); the `Status().Update`
error, if any, is propagated. -/
def rootStatusUpdate (env : WriterEnv) (rootPolicy : Policy) :
    List RootStatus × Except String Unit :=
  match getDecisions env rootPolicy with
  | (_, _, some _) => ([], .error "could not get the placement decisions")
  | (placements, decisions, none) =>
    let cpcs := (calculatePerClusterStatus env.toK8sEnv rootPolicy decisions).1
    let newStatus : RootStatus := ⟨cpcs, env.calcRootCompliance cpcs, placements⟩
    match env.updateStatusResult with
    | some e => ([newStatus], .error e)
    | none => ([newStatus], .ok ())

/-! ## Derived predicates and concrete sample data used by the theorems -/

/-- The placement records of a binding's resolver result (`[]` on error). -/
def resolverPlacements (env : K8sEnv) (inst : Policy) (pb : PlacementBinding) :
    List Placement :=
  match getPolicyPlacementDecisions env inst pb with
  | .ok (_, ps) => ps
  | .error _ => []

/-- The decisions of a binding's resolver result (`[]` on error). -/
def resolverDecisions (env : K8sEnv) (inst : Policy) (pb : PlacementBinding) :
    List PlacementDecision :=
  match getPolicyPlacementDecisions env inst pb with
  | .ok (ds, _) => ds
  | .error _ => []

/-- Whether a restricted binding matches at least one target of the key set
`keys` — the pass-2 `foundInDecisions` flag, phrased against the pass-invariant
set of decided targets. -/
def restrictedMatched (env : K8sEnv) (inst : Policy)
    (keys : List PlacementDecision) (pb : PlacementBinding) : Bool :=
  (resolverDecisions env inst pb).any fun d => decide (d ∈ keys)

/-- `d` is among the targets the Binding Resolver returns for some unrestricted
binding in `pbs`. -/
def contributes (env : K8sEnv) (inst : Policy) (pbs : List PlacementBinding)
    (d : PlacementDecision) : Prop :=
  ∃ pb ∈ pbs, pb.subFilter ≠ Restricted ∧
    ∃ ds ps, getPolicyPlacementDecisions env inst pb = .ok (ds, ps) ∧ d ∈ ds

/-- `d` is among the targets of some unrestricted binding whose override
remediation action equals-fold `"Enforce"`. -/
def contributesEnforce (env : K8sEnv) (inst : Policy)
    (pbs : List PlacementBinding) (d : PlacementDecision) : Prop :=
  ∃ pb ∈ pbs, pb.subFilter ≠ Restricted ∧
    (∃ ds ps, getPolicyPlacementDecisions env inst pb = .ok (ds, ps) ∧ d ∈ ds) ∧
    eqFold pb.bindingOverrides.remediationAction enforceStr = true

/-- The entry the aggregation loop appends for one decision (closed-form view
of one `perClusterStep` iteration). -/
def perClusterEntry (env : K8sEnv) (inst : Policy) (dec : PlacementDecision) :
    CompliancePerClusterStatus :=
  match env.getReplicatedPolicy (replicaKey inst dec) with
  | .found st => ⟨st, dec.clusterName, dec.clusterNamespace⟩
  | .notFound => ⟨"", dec.clusterName, dec.clusterNamespace⟩
  | .err _ => ⟨"", dec.clusterName, dec.clusterNamespace⟩

/-- The non-not-found lookup error, if any, produced for one decision. -/
def lookupErrOf (env : K8sEnv) (inst : Policy) (dec : PlacementDecision) :
    Option String :=
  match env.getReplicatedPolicy (replicaKey inst dec) with
  | .err e => some e
  | .found _ => none
  | .notFound => none

/-- A sample environment: every grouping lookup is not-found, every replica
lookup is not-found, and the decision-lookup collaborator resolves every
binding to the single cluster `clusterA`. -/
def sampleEnv : K8sEnv where
  getPlacementRule := fun _ => .notFound
  getPlacement := fun _ => .notFound
  getPolicySet := fun _ => .notFound
  getReplicatedPolicy := fun _ => .notFound
  getDecisionsFor := fun _ => .ok [⟨"clusterA", "clusterA"⟩]

/-- A sample enabled root policy. -/
def samplePolicy : Policy := ⟨"p", "ns", false⟩

/-- A sample disabled root policy. -/
def sampleDisabledPolicy : Policy := ⟨"p", "ns", true⟩

/-- An unrestricted binding whose single subject names the sample policy. -/
def sampleBinding : PlacementBinding :=
  { name := "b1", ns := "ns",
    subjects := [⟨policyGroup, policyKind, "p"⟩],
    placementRef := ⟨"apps.open-cluster-management.io", "PlacementRule", "g1"⟩ }

/-- A restricted binding whose single subject names the sample policy. -/
def sampleRestrictedBinding : PlacementBinding :=
  { sampleBinding with name := "b3", subFilter := Restricted }

/-- The single decision `sampleEnv` resolves every binding to. -/
def sampleDecision : PlacementDecision := ⟨"clusterA", "clusterA"⟩

/-- A second unrestricted binding with an `"Enforce"` override, for witnesses. -/
def sampleEnforceBinding : PlacementBinding :=
  { sampleBinding with name := "b2", bindingOverrides := ⟨"Enforce"⟩ }

/-- An environment whose decision-lookup collaborator always fails. -/
def sampleErrEnv : K8sEnv :=
  { sampleEnv with getDecisionsFor := fun _ => .error "boom" }

/-- A restricted binding with an unsupported placement reference kind. -/
def sampleInvalidRestrictedBinding : PlacementBinding :=
  { sampleRestrictedBinding with placementRef := ⟨"bogus.group", "Bogus", "g1"⟩ }

/-- A decision whose cluster name ties with `dupDecision2`. -/
def dupDecision1 : PlacementDecision := ⟨"c", "n1"⟩

/-- A decision whose cluster name ties with `dupDecision1`. -/
def dupDecision2 : PlacementDecision := ⟨"c", "n2"⟩

/-- An environment whose replica lookups fail with `"e1"` for namespace `n1`
and `"e2"` otherwise. -/
def doubleErrEnv : K8sEnv :=
  { sampleEnv with
    getReplicatedPolicy := fun nn => if nn.ns == "n1" then .err "e1" else .err "e2" }

/-- A variant of `sampleEnv` differing everywhere except at the replica keys
of `sampleDecision`. -/
def sampleEnvVariant : K8sEnv :=
  { sampleEnv with
    getPlacementRule := fun _ => .err "x",
    getDecisionsFor := fun _ => .error "y",
    getReplicatedPolicy := fun nn =>
      if nn.ns == "unused" then .found "Compliant" else .notFound }

/-- A writer environment whose binding listing fails. -/
def sampleWriterEnv : WriterEnv :=
  { toK8sEnv := sampleEnv
    listBindings := .error "list failure"
    refreshRoot := .notFound
    updateStatusResult := none
    calcRootCompliance := fun _ => "NonCompliant" }

/-! ## Order lemmas for the sort comparator -/

theorem lexLt_nil_right (x : List Char) : lexLt x [] = false := by
  cases x <;> rfl

theorem lexLt_irrefl : ∀ x : List Char, lexLt x x = false
  | [] => rfl
  | a :: as => by simp [lexLt, lexLt_irrefl as]

theorem lexLt_trans :
    ∀ x y z : List Char, lexLt x y = true → lexLt y z = true → lexLt x z = true
  | _, [], _, hxy, _ => by rw [lexLt_nil_right] at hxy; exact absurd hxy (by simp)
  | _, _ :: _, [], _, hyz => by rw [lexLt_nil_right] at hyz; exact absurd hyz (by simp)
  | [], _ :: _, _ :: _, _, _ => rfl
  | a :: as, b :: bs, c :: cs, hxy, hyz => by
    simp only [lexLt] at hxy hyz ⊢
    by_cases hab : a < b
    · by_cases hbc : b < c
      · simp [lt_trans hab hbc]
      · simp only [if_pos hab] at hxy
        by_cases hbceq : b = c
        · subst hbceq; simp [hab]
        · simp [hbc, hbceq] at hyz
    · by_cases habeq : a = b
      · subst habeq
        simp only [if_neg hab, if_pos rfl] at hxy
        by_cases hbc : a < c
        · simp [hbc]
        · by_cases hbceq : a = c
          · subst hbceq
            simp only [if_neg hbc, if_pos rfl] at hyz ⊢
            exact lexLt_trans as bs cs hxy hyz
          · simp [hbc, hbceq] at hyz
      · simp [hab, habeq] at hxy

theorem lexLt_trich (x y : List Char) :
    lexLt x y = true ∨ lexLt y x = true ∨ x = y := by
  induction x generalizing y with
  | nil => cases y with
    | nil => exact Or.inr (Or.inr rfl)
    | cons b bs => exact Or.inl rfl
  | cons a as ih =>
    cases y with
    | nil => exact Or.inr (Or.inl rfl)
    | cons b bs =>
      rcases lt_trichotomy a b with hab | hab | hab
      · exact Or.inl (by simp [lexLt, hab])
      · subst hab
        rcases ih bs with h | h | h
        · exact Or.inl (by simp [lexLt, h])
        · exact Or.inr (Or.inl (by simp [lexLt, h]))
        · exact Or.inr (Or.inr (by rw [h]))
      · exact Or.inr (Or.inl (by simp [lexLt, hab]))

theorem strLe_total (a b : String) : strLe a b = true ∨ strLe b a = true := by
  simp only [strLe, strLt, Bool.not_eq_true']
  by_cases h : lexLt b.data a.data = true
  · right
    by_cases h2 : lexLt a.data b.data = true
    · have := lexLt_trans _ _ _ h h2
      rw [lexLt_irrefl] at this
      exact absurd this (by simp)
    · simpa using h2
  · left; simpa using h

theorem strLe_trans {a b c : String} (hab : strLe a b = true)
    (hbc : strLe b c = true) : strLe a c = true := by
  simp only [strLe, strLt, Bool.not_eq_true'] at hab hbc ⊢
  by_cases hca : lexLt c.data a.data = true
  · rcases lexLt_trich b.data c.data with h | h | h
    · have := lexLt_trans _ _ _ h hca
      rw [this] at hab; exact absurd hab (by simp)
    · rw [h] at hbc; exact absurd hbc (by simp)
    · rw [h] at hab; rw [hca] at hab; exact absurd hab (by simp)
  · simpa using hca

theorem strLe_antisymm {a b : String} (hab : strLe a b = true)
    (hba : strLe b a = true) : a = b := by
  simp only [strLe, strLt, Bool.not_eq_true'] at hab hba
  rcases lexLt_trich a.data b.data with h | h | h
  · rw [h] at hba; exact absurd hba (by simp)
  · rw [h] at hab; exact absurd hab (by simp)
  · cases a; cases b; exact congrArg String.mk h

/-! ## Lemmas about the decision map -/

theorem lookupDec_append_of_none {m₁ : DecisionMap} {d : PlacementDecision}
    (m₂ : DecisionMap) (h : lookupDec m₁ d = none) :
    lookupDec (m₁ ++ m₂) d = lookupDec m₂ d := by
  induction m₁ with
  | nil => rfl
  | cons p m ih =>
    by_cases hp : p.1 = d
    · simp [lookupDec, hp] at h
    · simp only [lookupDec, hp, if_neg hp, List.cons_append] at h ⊢
      exact ih h

theorem lookupDec_append_of_some {m₁ : DecisionMap} {d : PlacementDecision}
    {v : BindingOverrides} (m₂ : DecisionMap) (h : lookupDec m₁ d = some v) :
    lookupDec (m₁ ++ m₂) d = some v := by
  induction m₁ with
  | nil => simp [lookupDec] at h
  | cons p m ih =>
    by_cases hp : p.1 = d
    · simp only [lookupDec, if_pos hp, List.cons_append] at h ⊢
      exact h
    · simp only [lookupDec, if_neg hp, List.cons_append] at h ⊢
      exact ih h

theorem lookupDec_snoc_self {m : DecisionMap} {d : PlacementDecision}
    (ov : BindingOverrides) (h : lookupDec m d = none) :
    lookupDec (m ++ [(d, ov)]) d = some ov := by
  rw [lookupDec_append_of_none _ h]
  simp [lookupDec]

theorem lookupDec_snoc_ne {d d' : PlacementDecision} (m : DecisionMap)
    (ov : BindingOverrides) (h : d' ≠ d) :
    lookupDec (m ++ [(d, ov)]) d' = lookupDec m d' := by
  cases hm : lookupDec m d' with
  | some v => exact lookupDec_append_of_some _ hm
  | none =>
    rw [lookupDec_append_of_none _ hm]
    simp only [lookupDec, if_neg (fun hh : d = d' => h hh.symm)]

theorem lookupDec_setDec_self {m : DecisionMap} {d : PlacementDecision}
    {v : BindingOverrides} (ov : BindingOverrides) (h : lookupDec m d = some v) :
    lookupDec (setDec m d ov) d = some ov := by
  induction m with
  | nil => simp [lookupDec] at h
  | cons p m ih =>
    by_cases hp : p.1 = d
    · simp [setDec, lookupDec, hp]
    · simp only [lookupDec, if_neg hp] at h
      have h2 := ih h
      simp only [setDec, List.map_cons, if_neg hp] at h2 ⊢
      simp only [lookupDec, if_neg hp]
      exact h2

theorem lookupDec_setDec_ne {d d' : PlacementDecision} (m : DecisionMap)
    (ov : BindingOverrides) (h : d' ≠ d) :
    lookupDec (setDec m d ov) d' = lookupDec m d' := by
  induction m with
  | nil => rfl
  | cons p m ih =>
    by_cases hp : p.1 = d
    · have hne : d ≠ d' := fun hh => h hh.symm
      simp only [setDec, List.map_cons, if_pos hp, lookupDec, hne, if_neg hne] at ih ⊢
      rw [if_neg (hp ▸ hne : p.1 ≠ d')]
      exact ih
    · simp only [setDec, List.map_cons, if_neg hp, lookupDec] at ih ⊢
      by_cases hp' : p.1 = d'
      · simp [hp']
      · simp only [if_neg hp']
        exact ih

theorem decKeys_setDec (m : DecisionMap) (d : PlacementDecision)
    (ov : BindingOverrides) : decKeys (setDec m d ov) = decKeys m := by
  induction m with
  | nil => rfl
  | cons p m ih =>
    by_cases hp : p.1 = d
    · have h1 := ih
      simp only [setDec, decKeys, List.map_cons, if_pos hp] at h1 ⊢
      rw [h1, hp]
    · have h1 := ih
      simp only [setDec, decKeys, List.map_cons, if_neg hp] at h1 ⊢
      rw [h1]

theorem decKeys_append (m₁ m₂ : DecisionMap) :
    decKeys (m₁ ++ m₂) = decKeys m₁ ++ decKeys m₂ := by
  simp [decKeys]

theorem mem_decKeys_iff (m : DecisionMap) (d : PlacementDecision) :
    d ∈ decKeys m ↔ ∃ ov, lookupDec m d = some ov := by
  induction m with
  | nil => simp [decKeys, lookupDec]
  | cons p m ih =>
    by_cases hp : p.1 = d
    · simp [decKeys, lookupDec, hp]
    · simp only [decKeys, List.map_cons, List.mem_cons, lookupDec, if_neg hp] at ih ⊢
      constructor
      · rintro (h | h)
        · exact absurd h.symm hp
        · exact ih.mp h
      · intro h
        exact Or.inr (ih.mpr h)

theorem not_mem_decKeys_of_lookup_none {m : DecisionMap} {d : PlacementDecision}
    (h : lookupDec m d = none) : d ∉ decKeys m := by
  rw [mem_decKeys_iff]
  rintro ⟨ov, hov⟩
  rw [h] at hov
  exact Option.noConfusion hov

/-! ## Lemmas about the "enforce" comparison -/

theorem eqFold_enforce_iff (s : String) :
    eqFold s enforceStr = true ↔ strLower s = "enforce" := by
  have h : strLower enforceStr = "enforce" := rfl
  unfold eqFold
  rw [h]
  exact beq_iff_eq

/-! ## Lemmas about the pass-1 merge step -/

theorem mergeU_lookup_ne (pb : PlacementBinding) (m : DecisionMap)
    {d₀ d : PlacementDecision} (h : d ≠ d₀) :
    lookupDec (mergeUnrestricted pb m d₀) d = lookupDec m d := by
  unfold mergeUnrestricted
  cases hm : lookupDec m d₀ with
  | some ov =>
    by_cases he : eqFold pb.bindingOverrides.remediationAction enforceStr = true
    · simp only [he, if_pos he]
      exact lookupDec_setDec_ne m _ h
    · simp [he]
  | none => exact lookupDec_snoc_ne m _ h

theorem mergeU_lookup_some (pb : PlacementBinding) (m : DecisionMap)
    {d₀ : PlacementDecision} {ov : BindingOverrides}
    (h : lookupDec m d₀ = some ov) :
    lookupDec (mergeUnrestricted pb m d₀) d₀ =
      some (if eqFold pb.bindingOverrides.remediationAction enforceStr then
          ⟨strLower enforceStr⟩
        else ov) := by
  unfold mergeUnrestricted
  rw [h]
  cases he : eqFold pb.bindingOverrides.remediationAction enforceStr with
  | true =>
    simp only [he, if_true]
    exact lookupDec_setDec_self _ h
  | false =>
    simp only [he, Bool.false_eq_true, if_false]
    exact h

theorem mergeU_lookup_none (pb : PlacementBinding) (m : DecisionMap)
    {d₀ : PlacementDecision} (h : lookupDec m d₀ = none) :
    lookupDec (mergeUnrestricted pb m d₀) d₀ =
      some ⟨strLower pb.bindingOverrides.remediationAction⟩ := by
  unfold mergeUnrestricted
  rw [h]
  exact lookupDec_snoc_self _ h

theorem mergeU_keys (pb : PlacementBinding) (m : DecisionMap)
    (d₀ d : PlacementDecision) :
    d ∈ decKeys (mergeUnrestricted pb m d₀) ↔ (d ∈ decKeys m ∨ d = d₀) := by
  unfold mergeUnrestricted
  cases hm : lookupDec m d₀ with
  | some ov =>
    have hd₀ : d₀ ∈ decKeys m := (mem_decKeys_iff m d₀).mpr ⟨ov, hm⟩
    have hiff : d ∈ decKeys m ↔ (d ∈ decKeys m ∨ d = d₀) :=
      ⟨Or.inl, fun h => h.elim id fun hh => hh ▸ hd₀⟩
    by_cases he : eqFold pb.bindingOverrides.remediationAction enforceStr = true
    · simpa only [he, if_true, decKeys_setDec] using hiff
    · simpa only [he, if_false] using hiff
  | none =>
    rw [decKeys_append]
    simp [decKeys, List.mem_append]

/-! ## Lemmas about the pass-1 merge fold -/

theorem mergeU_fold_lookup_not_mem (pb : PlacementBinding) :
    ∀ (ds : List PlacementDecision) (m : DecisionMap) (d : PlacementDecision),
      d ∉ ds →
      lookupDec (ds.foldl (mergeUnrestricted pb) m) d = lookupDec m d
  | [], _, _, _ => rfl
  | d₀ :: ds, m, d, h => by
    rw [List.foldl_cons]
    have hne : d ≠ d₀ := fun hh => h (hh ▸ List.mem_cons_self d₀ ds)
    rw [mergeU_fold_lookup_not_mem pb ds _ d
      (fun hh => h (List.mem_cons_of_mem _ hh))]
    exact mergeU_lookup_ne pb m hne

theorem mergeU_fold_lookup_some (pb : PlacementBinding) :
    ∀ (ds : List PlacementDecision) (m : DecisionMap) (d : PlacementDecision)
      (ov : BindingOverrides), d ∈ ds → lookupDec m d = some ov →
      lookupDec (ds.foldl (mergeUnrestricted pb) m) d =
        some (if eqFold pb.bindingOverrides.remediationAction enforceStr then
            ⟨strLower enforceStr⟩
          else ov)
  | [], _, _, _, h, _ => absurd h (List.not_mem_nil _)
  | d₀ :: ds, m, d, ov, h, hov => by
    rw [List.foldl_cons]
    by_cases hd : d = d₀
    · subst hd
      have h1 := mergeU_lookup_some pb m hov
      by_cases hmem : d ∈ ds
      · rw [mergeU_fold_lookup_some pb ds _ d _ hmem h1]
        cases he : eqFold pb.bindingOverrides.remediationAction enforceStr <;>
          simp [he]
      · rw [mergeU_fold_lookup_not_mem pb ds _ d hmem]
        exact h1
    · have hmem : d ∈ ds := (List.mem_cons.mp h).resolve_left hd
      have h1 : lookupDec (mergeUnrestricted pb m d₀) d = some ov := by
        rw [mergeU_lookup_ne pb m hd]
        exact hov
      exact mergeU_fold_lookup_some pb ds _ d _ hmem h1

theorem mergeU_fold_lookup_none (pb : PlacementBinding) :
    ∀ (ds : List PlacementDecision) (m : DecisionMap) (d : PlacementDecision),
      d ∈ ds → lookupDec m d = none →
      lookupDec (ds.foldl (mergeUnrestricted pb) m) d =
        some ⟨strLower pb.bindingOverrides.remediationAction⟩
  | [], _, _, h, _ => absurd h (List.not_mem_nil _)
  | d₀ :: ds, m, d, h, hnone => by
    rw [List.foldl_cons]
    by_cases hd : d = d₀
    · subst hd
      have h1 := mergeU_lookup_none pb m hnone
      by_cases hmem : d ∈ ds
      · rw [mergeU_fold_lookup_some pb ds _ d _ hmem h1]
        cases he : eqFold pb.bindingOverrides.remediationAction enforceStr
        · simp [he]
        · have hlow : strLower pb.bindingOverrides.remediationAction = "enforce" :=
            (eqFold_enforce_iff _).mp he
          have hlow2 : strLower enforceStr = "enforce" := rfl
          simp [he, hlow, hlow2]
      · rw [mergeU_fold_lookup_not_mem pb ds _ d hmem]
        exact h1
    · have hmem : d ∈ ds := (List.mem_cons.mp h).resolve_left hd
      have h1 : lookupDec (mergeUnrestricted pb m d₀) d = none := by
        rw [mergeU_lookup_ne pb m hd]
        exact hnone
      exact mergeU_fold_lookup_none pb ds _ d hmem h1

theorem mergeU_fold_keys (pb : PlacementBinding) :
    ∀ (ds : List PlacementDecision) (m : DecisionMap) (d : PlacementDecision),
      d ∈ decKeys (ds.foldl (mergeUnrestricted pb) m) ↔
        (d ∈ decKeys m ∨ d ∈ ds)
  | [], m, d => by simp
  | d₀ :: ds, m, d => by
    rw [List.foldl_cons]
    rw [mergeU_fold_keys pb ds _ d, mergeU_keys pb m d₀ d, List.mem_cons]
    tauto

/-! ## Lemmas about pass 1 -/

theorem contributes_cons (env : K8sEnv) (inst : Policy) (pb : PlacementBinding)
    (rest : List PlacementBinding) (d : PlacementDecision) :
    contributes env inst (pb :: rest) d ↔
      ((pb.subFilter ≠ Restricted ∧
          ∃ ds ps, getPolicyPlacementDecisions env inst pb = .ok (ds, ps) ∧ d ∈ ds) ∨
        contributes env inst rest d) := by
  simp [contributes, List.mem_cons]

theorem contributesEnforce_cons (env : K8sEnv) (inst : Policy)
    (pb : PlacementBinding) (rest : List PlacementBinding) (d : PlacementDecision) :
    contributesEnforce env inst (pb :: rest) d ↔
      ((pb.subFilter ≠ Restricted ∧
          (∃ ds ps, getPolicyPlacementDecisions env inst pb = .ok (ds, ps) ∧ d ∈ ds) ∧
          eqFold pb.bindingOverrides.remediationAction enforceStr = true) ∨
        contributesEnforce env inst rest d) := by
  simp [contributesEnforce, List.mem_cons]

theorem resolver_ok_mem_iff {env : K8sEnv} {inst : Policy} {pb : PlacementBinding}
    {ds : List PlacementDecision} {ps : List Placement}
    (h : getPolicyPlacementDecisions env inst pb = .ok (ds, ps))
    (d : PlacementDecision) :
    (∃ ds' ps', getPolicyPlacementDecisions env inst pb = .ok (ds', ps') ∧ d ∈ ds')
      ↔ d ∈ ds := by
  constructor
  · rintro ⟨ds', ps', h', hd⟩
    rw [h] at h'
    injection h' with h''
    injection h'' with h1 h2
    exact h1 ▸ hd
  · intro hd
    exact ⟨ds, ps, h, hd⟩

theorem pass1_nil (env : K8sEnv) (inst : Policy) (m : DecisionMap)
    (pls : List Placement) : pass1 env inst [] m pls = .ok (m, pls) := rfl

theorem pass1_cons_restricted (env : K8sEnv) (inst : Policy)
    {pb : PlacementBinding} (rest : List PlacementBinding) (m : DecisionMap)
    (pls : List Placement) (h : pb.subFilter = Restricted) :
    pass1 env inst (pb :: rest) m pls = pass1 env inst rest m pls := by
  simp [pass1, h]

theorem pass1_cons_err (env : K8sEnv) (inst : Policy) {pb : PlacementBinding}
    (rest : List PlacementBinding) (m : DecisionMap) (pls : List Placement)
    {e : String} (h : ¬ pb.subFilter = Restricted)
    (he : getPolicyPlacementDecisions env inst pb = .error e) :
    pass1 env inst (pb :: rest) m pls = .error e := by
  simp [pass1, h, he]

theorem pass1_cons_ok (env : K8sEnv) (inst : Policy) {pb : PlacementBinding}
    (rest : List PlacementBinding) (m : DecisionMap) (pls : List Placement)
    {ds : List PlacementDecision} {ps : List Placement}
    (h : ¬ pb.subFilter = Restricted)
    (hok : getPolicyPlacementDecisions env inst pb = .ok (ds, ps)) :
    pass1 env inst (pb :: rest) m pls =
      pass1 env inst rest (ds.foldl (mergeUnrestricted pb) m) (pls ++ ps) := by
  simp [pass1, h, hok]

theorem pass2_nil (env : K8sEnv) (inst : Policy) (m : DecisionMap)
    (pls : List Placement) : pass2 env inst [] m pls = .ok (m, pls) := rfl

theorem pass2_cons_unres (env : K8sEnv) (inst : Policy) {pb : PlacementBinding}
    (rest : List PlacementBinding) (m : DecisionMap) (pls : List Placement)
    (h : ¬ pb.subFilter = Restricted) :
    pass2 env inst (pb :: rest) m pls = pass2 env inst rest m pls := by
  simp [pass2, h]

theorem pass2_cons_err (env : K8sEnv) (inst : Policy) {pb : PlacementBinding}
    (rest : List PlacementBinding) (m : DecisionMap) (pls : List Placement)
    {e : String} (h : pb.subFilter = Restricted)
    (he : getPolicyPlacementDecisions env inst pb = .error e) :
    pass2 env inst (pb :: rest) m pls = .error e := by
  simp [pass2, h, he]

theorem pass2_cons_ok (env : K8sEnv) (inst : Policy) {pb : PlacementBinding}
    (rest : List PlacementBinding) (m : DecisionMap) (pls : List Placement)
    {ds : List PlacementDecision} {ps : List Placement}
    (h : pb.subFilter = Restricted)
    (hok : getPolicyPlacementDecisions env inst pb = .ok (ds, ps)) :
    pass2 env inst (pb :: rest) m pls =
      pass2 env inst rest (ds.foldl (mergeRestricted pb) (m, false)).1
        (if (ds.foldl (mergeRestricted pb) (m, false)).2 then pls ++ ps else pls) := by
  simp [pass2, h, hok]

/-- The central pass-1 invariant: starting from a map whose keys are exactly
`C` and whose `"enforce"` entries are exactly `E`, a successful pass 1 yields a
map whose keys are `C` plus the contributed decisions and whose `"enforce"`
entries are `E` plus the enforce-contributed decisions. -/
theorem pass1_spec (env : K8sEnv) (inst : Policy) (pbs : List PlacementBinding) :
    ∀ (m : DecisionMap) (pls : List Placement) (m' : DecisionMap)
      (pls' : List Placement) (C E : PlacementDecision → Prop),
    pass1 env inst pbs m pls = .ok (m', pls') →
    (∀ d, d ∈ decKeys m ↔ C d) →
    (∀ d ov, lookupDec m d = some ov → (ov.remediationAction = "enforce" ↔ E d)) →
    (∀ d, E d → C d) →
    ((∀ d, d ∈ decKeys m' ↔ (C d ∨ contributes env inst pbs d)) ∧
      (∀ d ov, lookupDec m' d = some ov →
        (ov.remediationAction = "enforce" ↔
          (E d ∨ contributesEnforce env inst pbs d)))) := by
  induction pbs with
  | nil =>
    intro m pls m' pls' C E h hC hE _
    rw [pass1_nil] at h
    injection h with h
    injection h with h1 h2
    subst h1
    constructor
    · intro d
      simp only [contributes, List.not_mem_nil, false_and, exists_false,
        or_false, List.mem_nil_iff]
      · exact (hC d).trans (by simp)
    · intro d ov hov
      rw [hE d ov hov]
      simp [contributesEnforce]
  | cons pb rest ih =>
    intro m pls m' pls' C E h hC hE hEC
    by_cases hres : pb.subFilter = Restricted
    · rw [pass1_cons_restricted env inst rest m pls hres] at h
      obtain ⟨hk, he⟩ := ih m pls m' pls' C E h hC hE hEC
      constructor
      · intro d
        rw [hk d, contributes_cons]
        constructor
        · rintro (h1 | h1)
          · exact Or.inl h1
          · exact Or.inr (Or.inr h1)
        · rintro (h1 | ⟨h1, -⟩ | h1)
          · exact Or.inl h1
          · exact absurd hres h1
          · exact Or.inr h1
      · intro d ov hov
        rw [he d ov hov, contributesEnforce_cons]
        constructor
        · rintro (h1 | h1)
          · exact Or.inl h1
          · exact Or.inr (Or.inr h1)
        · rintro (h1 | ⟨h1, _⟩ | h1)
          · exact Or.inl h1
          · exact absurd hres h1
          · exact Or.inr h1
    · cases hres2 : getPolicyPlacementDecisions env inst pb with
      | error e =>
        rw [pass1_cons_err env inst rest m pls hres hres2] at h
        exact absurd h (by simp)
      | ok pr =>
        obtain ⟨ds, ps⟩ := pr
        rw [pass1_cons_ok env inst rest m pls hres hres2] at h
        have hC1 : ∀ d, d ∈ decKeys (ds.foldl (mergeUnrestricted pb) m) ↔
            (C d ∨ d ∈ ds) := by
          intro d
          rw [mergeU_fold_keys pb ds m d, hC d]
        have hE1 : ∀ d ov,
            lookupDec (ds.foldl (mergeUnrestricted pb) m) d = some ov →
            (ov.remediationAction = "enforce" ↔
              (E d ∨ (d ∈ ds ∧
                eqFold pb.bindingOverrides.remediationAction enforceStr = true))) := by
          intro d ov hov
          by_cases hmem : d ∈ ds
          · cases hm : lookupDec m d with
            | some ov₀ =>
              rw [mergeU_fold_lookup_some pb ds m d ov₀ hmem hm] at hov
              injection hov with hov
              subst hov
              cases hef : eqFold pb.bindingOverrides.remediationAction enforceStr with
              | true =>
                simp only [hef, if_true]
                have hrfl : strLower enforceStr = "enforce" := rfl
                simp [hrfl, hmem]
              | false =>
                simp only [hef, Bool.false_eq_true, if_false]
                rw [hE d ov₀ hm]
                simp [hef]
            | none =>
              rw [mergeU_fold_lookup_none pb ds m d hmem hm] at hov
              injection hov with hov
              subst hov
              have hnE : ¬ E d := fun hEd =>
                not_mem_decKeys_of_lookup_none hm ((hC d).mpr (hEC d hEd))
              rw [← eqFold_enforce_iff]
              constructor
              · intro hef
                exact Or.inr ⟨hmem, hef⟩
              · rintro (hEd | ⟨_, hef⟩)
                · exact absurd hEd hnE
                · exact hef
          · rw [mergeU_fold_lookup_not_mem pb ds m d hmem] at hov
            rw [hE d ov hov]
            constructor
            · exact Or.inl
            · rintro (hEd | ⟨hmem2, _⟩)
              · exact hEd
              · exact absurd hmem2 hmem
        have hEC1 : ∀ d, (E d ∨ (d ∈ ds ∧
            eqFold pb.bindingOverrides.remediationAction enforceStr = true)) →
            (C d ∨ d ∈ ds) := by
          rintro d (hEd | ⟨hmem, _⟩)
          · exact Or.inl (hEC d hEd)
          · exact Or.inr hmem
        obtain ⟨hk, he⟩ := ih (ds.foldl (mergeUnrestricted pb) m) (pls ++ ps)
          m' pls' _ _ h hC1 hE1 hEC1
        constructor
        · intro d
          rw [hk d, contributes_cons, resolver_ok_mem_iff hres2 d]
          constructor
          · rintro ((h1 | h1) | h1)
            · exact Or.inl h1
            · exact Or.inr (Or.inl ⟨hres, h1⟩)
            · exact Or.inr (Or.inr h1)
          · rintro (h1 | ⟨_, h1⟩ | h1)
            · exact Or.inl (Or.inl h1)
            · exact Or.inl (Or.inr h1)
            · exact Or.inr h1
        · intro d ov hov
          rw [he d ov hov, contributesEnforce_cons, resolver_ok_mem_iff hres2 d]
          constructor
          · rintro ((h1 | h1) | h1)
            · exact Or.inl h1
            · exact Or.inr (Or.inl ⟨hres, h1.1, h1.2⟩)
            · exact Or.inr (Or.inr h1)
          · rintro (h1 | ⟨_, h1, h2⟩ | h1)
            · exact Or.inl (Or.inl h1)
            · exact Or.inl (Or.inr ⟨h1, h2⟩)
            · exact Or.inr h1

theorem pass1_pls_mono (env : K8sEnv) (inst : Policy) :
    ∀ (pbs : List PlacementBinding) (m : DecisionMap) (pls : List Placement)
      (m' : DecisionMap) (pls' : List Placement),
      pass1 env inst pbs m pls = .ok (m', pls') → ∀ r ∈ pls, r ∈ pls'
  | [], m, pls, m', pls', h => by
    rw [pass1_nil] at h
    injection h with h
    injection h with h1 h2
    subst h2
    exact fun r hr => hr
  | pb :: rest, m, pls, m', pls', h => by
    by_cases hres : pb.subFilter = Restricted
    · rw [pass1_cons_restricted env inst rest m pls hres] at h
      exact pass1_pls_mono env inst rest m pls m' pls' h
    · cases hres2 : getPolicyPlacementDecisions env inst pb with
      | error e =>
        rw [pass1_cons_err env inst rest m pls hres hres2] at h
        exact absurd h (by simp)
      | ok pr =>
        obtain ⟨ds, ps⟩ := pr
        rw [pass1_cons_ok env inst rest m pls hres hres2] at h
        intro r hr
        exact pass1_pls_mono env inst rest _ _ m' pls' h r
          (List.mem_append_left _ hr)

theorem pass1_placements (env : K8sEnv) (inst : Policy) :
    ∀ (pbs : List PlacementBinding) (m : DecisionMap) (pls : List Placement)
      (m' : DecisionMap) (pls' : List Placement),
      pass1 env inst pbs m pls = .ok (m', pls') →
      ∀ pb ∈ pbs, pb.subFilter ≠ Restricted →
        ∀ ds ps, getPolicyPlacementDecisions env inst pb = .ok (ds, ps) →
          ∀ r ∈ ps, r ∈ pls'
  | [], _, _, _, _, _ => by simp
  | pb₀ :: rest, m, pls, m', pls', h => by
    intro pb hpb hres ds ps hok r hr
    rcases List.mem_cons.mp hpb with heq | hmem
    · subst heq
      rw [pass1_cons_ok env inst rest m pls hres hok] at h
      exact pass1_pls_mono env inst rest _ _ m' pls' h r
        (List.mem_append_right _ hr)
    · by_cases hres₀ : pb₀.subFilter = Restricted
      · rw [pass1_cons_restricted env inst rest m pls hres₀] at h
        exact pass1_placements env inst rest m pls m' pls' h pb hmem hres
          ds ps hok r hr
      · cases hres2 : getPolicyPlacementDecisions env inst pb₀ with
        | error e =>
          rw [pass1_cons_err env inst rest m pls hres₀ hres2] at h
          exact absurd h (by simp)
        | ok pr =>
          obtain ⟨ds₀, ps₀⟩ := pr
          rw [pass1_cons_ok env inst rest m pls hres₀ hres2] at h
          exact pass1_placements env inst rest _ _ m' pls' h pb hmem hres
            ds ps hok r hr

theorem pass1_all_restricted (env : K8sEnv) (inst : Policy) :
    ∀ (pbs : List PlacementBinding) (m : DecisionMap) (pls : List Placement),
      (∀ pb ∈ pbs, pb.subFilter = Restricted) →
      pass1 env inst pbs m pls = .ok (m, pls)
  | [], m, pls, _ => rfl
  | pb :: rest, m, pls, h => by
    rw [pass1_cons_restricted env inst rest m pls (h pb (List.mem_cons_self pb rest))]
    exact pass1_all_restricted env inst rest m pls
      fun pb' h' => h pb' (List.mem_cons_of_mem _ h')

theorem pass1_error_of_resolver_error (env : K8sEnv) (inst : Policy) :
    ∀ (pbs : List PlacementBinding) (m : DecisionMap) (pls : List Placement)
      (pb : PlacementBinding), pb ∈ pbs → pb.subFilter ≠ Restricted →
      (∃ e, getPolicyPlacementDecisions env inst pb = .error e) →
      ∃ e', pass1 env inst pbs m pls = .error e'
  | [], _, _, _, hmem, _, _ => absurd hmem (List.not_mem_nil _)
  | pb₀ :: rest, m, pls, pb, hmem, hres, herr => by
    by_cases hres₀ : pb₀.subFilter = Restricted
    · rw [pass1_cons_restricted env inst rest m pls hres₀]
      rcases List.mem_cons.mp hmem with heq | hmem'
      · exact absurd (heq ▸ hres₀) (heq ▸ hres)
      · exact pass1_error_of_resolver_error env inst rest m pls pb hmem' hres herr
    · cases hres2 : getPolicyPlacementDecisions env inst pb₀ with
      | error e => exact ⟨e, pass1_cons_err env inst rest m pls hres₀ hres2⟩
      | ok pr =>
        obtain ⟨ds, ps⟩ := pr
        rw [pass1_cons_ok env inst rest m pls hres₀ hres2]
        rcases List.mem_cons.mp hmem with heq | hmem'
        · subst heq
          obtain ⟨e, he⟩ := herr
          rw [he] at hres2
          exact absurd hres2 (by simp)
        · exact pass1_error_of_resolver_error env inst rest _ _ pb hmem' hres herr

theorem pass1_filter_eq (env : K8sEnv) (inst : Policy) :
    ∀ (pbs : List PlacementBinding) (m : DecisionMap) (pls : List Placement),
      pass1 env inst (pbs.filter fun pb => pb.subFilter != Restricted) m pls
        = pass1 env inst pbs m pls
  | [], _, _ => rfl
  | pb :: rest, m, pls => by
    by_cases hres : pb.subFilter = Restricted
    · rw [pass1_cons_restricted env inst rest m pls hres]
      have hfil : (pb :: rest).filter (fun pb => pb.subFilter != Restricted)
          = rest.filter fun pb => pb.subFilter != Restricted := by
        simp [List.filter_cons, hres]
      rw [hfil]
      exact pass1_filter_eq env inst rest m pls
    · have hfil : (pb :: rest).filter (fun pb => pb.subFilter != Restricted)
          = pb :: rest.filter fun pb => pb.subFilter != Restricted := by
        simp [List.filter_cons, hres]
      rw [hfil]
      cases hres2 : getPolicyPlacementDecisions env inst pb with
      | error e =>
        rw [pass1_cons_err env inst _ m pls hres hres2,
          pass1_cons_err env inst rest m pls hres hres2]
      | ok pr =>
        obtain ⟨ds, ps⟩ := pr
        rw [pass1_cons_ok env inst _ m pls hres hres2,
          pass1_cons_ok env inst rest m pls hres hres2]
        exact pass1_filter_eq env inst rest _ _

/-- When the policy is disabled, the Binding Resolver never returns decisions
(lines 238–241). -/
theorem resolver_disabled {env : K8sEnv} {inst : Policy} {pb : PlacementBinding}
    (hdis : inst.disabled = true) :
    ∀ ds ps, getPolicyPlacementDecisions env inst pb = .ok (ds, ps) → ds = [] := by
  intro ds ps h
  unfold getPolicyPlacementDecisions at h
  rw [hdis] at h
  repeat' split at h
  all_goals simp_all

theorem pass1_disabled (env : K8sEnv) (inst : Policy) (hdis : inst.disabled = true) :
    ∀ (pbs : List PlacementBinding) (m : DecisionMap) (pls : List Placement)
      (m' : DecisionMap) (pls' : List Placement),
      pass1 env inst pbs m pls = .ok (m', pls') → m' = m
  | [], m, pls, m', pls', h => by
    rw [pass1_nil] at h
    injection h with h
    injection h with h1 h2
    exact h1.symm
  | pb :: rest, m, pls, m', pls', h => by
    by_cases hres : pb.subFilter = Restricted
    · rw [pass1_cons_restricted env inst rest m pls hres] at h
      exact pass1_disabled env inst hdis rest m pls m' pls' h
    · cases hres2 : getPolicyPlacementDecisions env inst pb with
      | error e =>
        rw [pass1_cons_err env inst rest m pls hres hres2] at h
        exact absurd h (by simp)
      | ok pr =>
        obtain ⟨ds, ps⟩ := pr
        have hds : ds = [] := resolver_disabled hdis ds ps hres2
        subst hds
        rw [pass1_cons_ok env inst rest m pls hres hres2] at h
        exact pass1_disabled env inst hdis rest m (pls ++ ps) m' pls' h

/-! ## Lemmas about pass 2 -/

theorem mergeR_keys (pb : PlacementBinding) (acc : DecisionMap × Bool)
    (d : PlacementDecision) :
    decKeys (mergeRestricted pb acc d).1 = decKeys acc.1 := by
  unfold mergeRestricted
  cases hm : lookupDec acc.1 d with
  | some ov =>
    cases he : eqFold pb.bindingOverrides.remediationAction enforceStr with
    | true => simp [he, decKeys_setDec]
    | false => simp [he]
  | none => rfl

theorem mergeR_fold_keys (pb : PlacementBinding) :
    ∀ (ds : List PlacementDecision) (acc : DecisionMap × Bool),
      decKeys (ds.foldl (mergeRestricted pb) acc).1 = decKeys acc.1
  | [], _ => rfl
  | d₀ :: ds, acc => by
    rw [List.foldl_cons, mergeR_fold_keys pb ds _, mergeR_keys pb acc d₀]

theorem pass2_keys (env : K8sEnv) (inst : Policy) :
    ∀ (pbs : List PlacementBinding) (m : DecisionMap) (pls : List Placement)
      (m' : DecisionMap) (pls' : List Placement),
      pass2 env inst pbs m pls = .ok (m', pls') → decKeys m' = decKeys m
  | [], m, pls, m', pls', h => by
    rw [pass2_nil] at h
    injection h with h
    injection h with h1 h2
    exact h1 ▸ rfl
  | pb :: rest, m, pls, m', pls', h => by
    by_cases hres : pb.subFilter = Restricted
    · cases hres2 : getPolicyPlacementDecisions env inst pb with
      | error e =>
        rw [pass2_cons_err env inst rest m pls hres hres2] at h
        exact absurd h (by simp)
      | ok pr =>
        obtain ⟨ds, ps⟩ := pr
        rw [pass2_cons_ok env inst rest m pls hres hres2] at h
        rw [pass2_keys env inst rest _ _ m' pls' h, mergeR_fold_keys pb ds _]
    · rw [pass2_cons_unres env inst rest m pls hres] at h
      exact pass2_keys env inst rest m pls m' pls' h

theorem pass2_no_restricted (env : K8sEnv) (inst : Policy) :
    ∀ (pbs : List PlacementBinding) (m : DecisionMap) (pls : List Placement),
      (∀ pb ∈ pbs, pb.subFilter ≠ Restricted) →
      pass2 env inst pbs m pls = .ok (m, pls)
  | [], _, _, _ => rfl
  | pb :: rest, m, pls, h => by
    rw [pass2_cons_unres env inst rest m pls (h pb (List.mem_cons_self pb rest))]
    exact pass2_no_restricted env inst rest m pls
      fun pb' h' => h pb' (List.mem_cons_of_mem _ h')

theorem pass2_error_of_resolver_error (env : K8sEnv) (inst : Policy) :
    ∀ (pbs : List PlacementBinding) (m : DecisionMap) (pls : List Placement)
      (pb : PlacementBinding), pb ∈ pbs → pb.subFilter = Restricted →
      (∃ e, getPolicyPlacementDecisions env inst pb = .error e) →
      ∃ e', pass2 env inst pbs m pls = .error e'
  | [], _, _, _, hmem, _, _ => absurd hmem (List.not_mem_nil _)
  | pb₀ :: rest, m, pls, pb, hmem, hres, herr => by
    by_cases hres₀ : pb₀.subFilter = Restricted
    · cases hres2 : getPolicyPlacementDecisions env inst pb₀ with
      | error e => exact ⟨e, pass2_cons_err env inst rest m pls hres₀ hres2⟩
      | ok pr =>
        obtain ⟨ds, ps⟩ := pr
        rw [pass2_cons_ok env inst rest m pls hres₀ hres2]
        rcases List.mem_cons.mp hmem with heq | hmem'
        · subst heq
          obtain ⟨e, he⟩ := herr
          rw [he] at hres2
          exact absurd hres2 (by simp)
        · exact pass2_error_of_resolver_error env inst rest _ _ pb hmem' hres herr
    · rw [pass2_cons_unres env inst rest m pls hres₀]
      rcases List.mem_cons.mp hmem with heq | hmem'
      · exact absurd (heq ▸ hres) hres₀
      · exact pass2_error_of_resolver_error env inst rest m pls pb hmem' hres herr

/-- The placements collected by pass 1 are exactly the concatenated resolver
placements of the unrestricted bindings, in input order. -/
theorem pass1_pls_eq (env : K8sEnv) (inst : Policy) :
    ∀ (pbs : List PlacementBinding) (m : DecisionMap) (pls : List Placement)
      (m' : DecisionMap) (pls' : List Placement),
      pass1 env inst pbs m pls = .ok (m', pls') →
      pls' = pls ++ (pbs.filter fun pb => pb.subFilter != Restricted).flatMap
        (resolverPlacements env inst)
  | [], m, pls, m', pls', h => by
    rw [pass1_nil] at h
    injection h with h
    injection h with h1 h2
    simp [← h2]
  | pb :: rest, m, pls, m', pls', h => by
    by_cases hres : pb.subFilter = Restricted
    · rw [pass1_cons_restricted env inst rest m pls hres] at h
      have hfil : (pb :: rest).filter (fun pb => pb.subFilter != Restricted)
          = rest.filter fun pb => pb.subFilter != Restricted := by
        simp [List.filter_cons, hres]
      rw [hfil]
      exact pass1_pls_eq env inst rest m pls m' pls' h
    · cases hres2 : getPolicyPlacementDecisions env inst pb with
      | error e =>
        rw [pass1_cons_err env inst rest m pls hres hres2] at h
        exact absurd h (by simp)
      | ok pr =>
        obtain ⟨ds, ps⟩ := pr
        rw [pass1_cons_ok env inst rest m pls hres hres2] at h
        have hfil : (pb :: rest).filter (fun pb => pb.subFilter != Restricted)
            = pb :: rest.filter fun pb => pb.subFilter != Restricted := by
          simp [List.filter_cons, hres]
        have hrp : resolverPlacements env inst pb = ps := by
          unfold resolverPlacements
          rw [hres2]
        rw [hfil, List.flatMap_cons, hrp,
          pass1_pls_eq env inst rest _ _ m' pls' h, List.append_assoc]

/-- The pass-2 `foundInDecisions` flag over one binding's decisions is exactly
"some decision is already a key" — values change during the fold, keys do
not. -/
theorem mergeR_fold_flag (pb : PlacementBinding) :
    ∀ (ds : List PlacementDecision) (m : DecisionMap) (b : Bool),
      (ds.foldl (mergeRestricted pb) (m, b)).2
        = (b || ds.any fun d => decide (d ∈ decKeys m))
  | [], m, b => by simp
  | d₀ :: ds, m, b => by
    rw [List.foldl_cons, List.any_cons]
    cases hm : lookupDec m d₀ with
    | some ov =>
      have hmem : d₀ ∈ decKeys m := (mem_decKeys_iff m d₀).mpr ⟨ov, hm⟩
      have hstep : mergeRestricted pb (m, b) d₀
          = (if eqFold pb.bindingOverrides.remediationAction enforceStr then
              setDec m d₀ ⟨strLower enforceStr⟩ else m, true) := by
        unfold mergeRestricted
        rw [hm]
      rw [hstep, mergeR_fold_flag pb ds _ true]
      simp [hmem]
    | none =>
      have hmem : d₀ ∉ decKeys m := not_mem_decKeys_of_lookup_none hm
      have hstep : mergeRestricted pb (m, b) d₀ = (m, b) := by
        unfold mergeRestricted
        rw [hm]
      rw [hstep, mergeR_fold_flag pb ds m b]
      simp [hmem]

/-- The placements appended by pass 2 are exactly the concatenated resolver
placements of the restricted bindings that match the (pass-invariant) key
set, in input order. -/
theorem pass2_pls_eq (env : K8sEnv) (inst : Policy) :
    ∀ (pbs : List PlacementBinding) (m : DecisionMap) (pls : List Placement)
      (m' : DecisionMap) (pls' : List Placement),
      pass2 env inst pbs m pls = .ok (m', pls') →
      pls' = pls ++ (pbs.filter fun pb =>
          (pb.subFilter == Restricted)
            && restrictedMatched env inst (decKeys m) pb).flatMap
        (resolverPlacements env inst)
  | [], m, pls, m', pls', h => by
    rw [pass2_nil] at h
    injection h with h
    injection h with h1 h2
    simp [← h2]
  | pb :: rest, m, pls, m', pls', h => by
    by_cases hres : pb.subFilter = Restricted
    · cases hres2 : getPolicyPlacementDecisions env inst pb with
      | error e =>
        rw [pass2_cons_err env inst rest m pls hres hres2] at h
        exact absurd h (by simp)
      | ok pr =>
        obtain ⟨ds, ps⟩ := pr
        rw [pass2_cons_ok env inst rest m pls hres hres2] at h
        have hrd : resolverDecisions env inst pb = ds := by
          unfold resolverDecisions
          rw [hres2]
        have hrp : resolverPlacements env inst pb = ps := by
          unfold resolverPlacements
          rw [hres2]
        have hflag : (ds.foldl (mergeRestricted pb) (m, false)).2
            = restrictedMatched env inst (decKeys m) pb := by
          rw [mergeR_fold_flag pb ds m false]
          unfold restrictedMatched
          rw [hrd]
          simp
        have hrec := pass2_pls_eq env inst rest _ _ m' pls' h
        rw [mergeR_fold_keys pb ds (m, false)] at hrec
        rw [hflag] at hrec
        cases hmt : restrictedMatched env inst (decKeys m) pb with
        | true =>
          rw [hmt] at hrec
          simp only [if_true] at hrec
          have hfil : (pb :: rest).filter (fun pb =>
              (pb.subFilter == Restricted)
                && restrictedMatched env inst (decKeys m) pb)
              = pb :: rest.filter fun pb => (pb.subFilter == Restricted)
                  && restrictedMatched env inst (decKeys m) pb := by
            simp [List.filter_cons, hres, hmt]
          rw [hfil, List.flatMap_cons, hrp, hrec, List.append_assoc]
        | false =>
          rw [hmt] at hrec
          simp only [Bool.false_eq_true, if_false] at hrec
          have hfil : (pb :: rest).filter (fun pb =>
              (pb.subFilter == Restricted)
                && restrictedMatched env inst (decKeys m) pb)
              = rest.filter fun pb => (pb.subFilter == Restricted)
                  && restrictedMatched env inst (decKeys m) pb := by
            simp [List.filter_cons, hres, hmt]
          rw [hfil, hrec]
    · rw [pass2_cons_unres env inst rest m pls hres] at h
      have hfil : (pb :: rest).filter (fun pb =>
          (pb.subFilter == Restricted)
            && restrictedMatched env inst (decKeys m) pb)
          = rest.filter fun pb => (pb.subFilter == Restricted)
              && restrictedMatched env inst (decKeys m) pb := by
        simp [List.filter_cons, hres]
      rw [hfil]
      exact pass2_pls_eq env inst rest m pls m' pls' h

theorem contributes_perm {env : K8sEnv} {inst : Policy}
    {pbs₁ pbs₂ : List PlacementBinding} (hp : pbs₁.Perm pbs₂)
    (d : PlacementDecision) :
    contributes env inst pbs₁ d ↔ contributes env inst pbs₂ d := by
  unfold contributes
  constructor
  · rintro ⟨pb, hpb, hrest⟩
    exact ⟨pb, hp.mem_iff.mp hpb, hrest⟩
  · rintro ⟨pb, hpb, hrest⟩
    exact ⟨pb, hp.mem_iff.mpr hpb, hrest⟩

theorem any_congr_mem {α : Type} (p q : α → Bool) :
    ∀ l : List α, (∀ a ∈ l, p a = q a) → l.any p = l.any q
  | [], _ => rfl
  | a :: l, h => by
    rw [List.any_cons, List.any_cons, h a (List.mem_cons_self a l),
      any_congr_mem p q l fun a' ha' => h a' (List.mem_cons_of_mem _ ha')]

theorem restrictedMatched_congr (env : K8sEnv) (inst : Policy)
    {keys₁ keys₂ : List PlacementDecision}
    (h : ∀ d, d ∈ keys₁ ↔ d ∈ keys₂) (pb : PlacementBinding) :
    restrictedMatched env inst keys₁ pb
      = restrictedMatched env inst keys₂ pb := by
  unfold restrictedMatched
  refine any_congr_mem _ _ _ fun d _ => ?_
  by_cases hd : d ∈ keys₁
  · simp [hd, (h d).mp hd]
  · have hd2 : d ∉ keys₂ := fun hh => hd ((h d).mpr hh)
    simp [hd, hd2]

/-! ## Lemmas about the Decision-Set Builder -/

theorem getAllClusterDecisions_of_pass1_err {env : K8sEnv} {inst : Policy}
    {pbs : List PlacementBinding} {e : String}
    (h : pass1 env inst pbs [] [] = .error e) :
    getAllClusterDecisions env inst pbs = .error e := by
  unfold getAllClusterDecisions
  rw [h]

theorem getAllClusterDecisions_early_exit {env : K8sEnv} {inst : Policy}
    {pbs : List PlacementBinding} {pls : List Placement}
    (h : pass1 env inst pbs [] [] = .ok ([], pls)) :
    getAllClusterDecisions env inst pbs = .ok ([], sortPlacements pls) := by
  unfold getAllClusterDecisions
  rw [h]
  rfl

theorem getAllClusterDecisions_of_pass2_ok {env : K8sEnv} {inst : Policy}
    {pbs : List PlacementBinding} {m m2 : DecisionMap} {pls pls2 : List Placement}
    (h1 : pass1 env inst pbs [] [] = .ok (m, pls)) (hm : ¬ m.isEmpty)
    (h2 : pass2 env inst pbs m pls = .ok (m2, pls2)) :
    getAllClusterDecisions env inst pbs = .ok (m2, sortPlacements pls2) := by
  unfold getAllClusterDecisions
  rw [h1]
  simp only [hm, Bool.false_eq_true, if_false, h2]

theorem getAllClusterDecisions_of_pass2_err {env : K8sEnv} {inst : Policy}
    {pbs : List PlacementBinding} {m : DecisionMap} {pls : List Placement}
    {e : String}
    (h1 : pass1 env inst pbs [] [] = .ok (m, pls)) (hm : ¬ m.isEmpty)
    (h2 : pass2 env inst pbs m pls = .error e) :
    getAllClusterDecisions env inst pbs = .error e := by
  unfold getAllClusterDecisions
  rw [h1]
  simp only [hm, Bool.false_eq_true, if_false, h2]

/-! ## Lemmas about the sorts -/

theorem sortPlacements_sorted (l : List Placement) :
    (sortPlacements l).Pairwise (keyLE Placement.placementBinding) := by
  haveI : IsTotal Placement (keyLE Placement.placementBinding) :=
    ⟨fun a b => strLe_total _ _⟩
  haveI : IsTrans Placement (keyLE Placement.placementBinding) :=
    ⟨fun _ _ _ hab hbc => strLe_trans hab hbc⟩
  exact List.sorted_insertionSort _ l

theorem sortPlacements_perm (l : List Placement) : (sortPlacements l).Perm l :=
  List.perm_insertionSort _ l

theorem mem_sortPlacements {l : List Placement} {x : Placement} :
    x ∈ sortPlacements l ↔ x ∈ l :=
  List.mem_insertionSort _

theorem sortStatuses_sorted (l : List CompliancePerClusterStatus) :
    (sortStatuses l).Pairwise (keyLE CompliancePerClusterStatus.clusterName) := by
  haveI : IsTotal CompliancePerClusterStatus
      (keyLE CompliancePerClusterStatus.clusterName) :=
    ⟨fun a b => strLe_total _ _⟩
  haveI : IsTrans CompliancePerClusterStatus
      (keyLE CompliancePerClusterStatus.clusterName) :=
    ⟨fun _ _ _ hab hbc => strLe_trans hab hbc⟩
  exact List.sorted_insertionSort _ l

theorem sortStatuses_perm (l : List CompliancePerClusterStatus) :
    (sortStatuses l).Perm l :=
  List.perm_insertionSort _ l

/-- Two sorted permutations of each other with pairwise-distinct sort keys are
equal. -/
theorem eq_of_perm_sorted_nodup {α : Type} (key : α → String) :
    ∀ (l₁ l₂ : List α), l₁.Perm l₂ →
      l₁.Pairwise (keyLE key) → l₂.Pairwise (keyLE key) →
      (l₁.map key).Nodup → l₁ = l₂
  | [], l₂, hp, _, _, _ => (hp.nil_eq).symm ▸ rfl
  | a :: t₁, [], hp, _, _, _ => absurd hp.length_eq (by simp)
  | a :: t₁, b :: t₂, hp, hs₁, hs₂, hn => by
    have hab : a = b := by
      by_cases h : a = b
      · exact h
      · have ha2 : a ∈ b :: t₂ := hp.mem_iff.mp (List.mem_cons_self a t₁)
        have hb1 : b ∈ a :: t₁ := hp.symm.mem_iff.mp (List.mem_cons_self b t₂)
        have hat₂ : a ∈ t₂ := (List.mem_cons.mp ha2).resolve_left h
        have hbt₁ : b ∈ t₁ := (List.mem_cons.mp hb1).resolve_left fun hh => h hh.symm
        have h1 : strLe (key a) (key b) = true :=
          (List.pairwise_cons.mp hs₁).1 b hbt₁
        have h2 : strLe (key b) (key a) = true :=
          (List.pairwise_cons.mp hs₂).1 a hat₂
        have hkey : key a = key b := strLe_antisymm h1 h2
        have hka : key a ∈ t₁.map key := hkey ▸ List.mem_map_of_mem key hbt₁
        rw [List.map_cons, List.nodup_cons] at hn
        exact absurd hka hn.1
    subst hab
    have hp' := hp.cons_inv
    have ht := eq_of_perm_sorted_nodup key t₁ t₂ hp'
      (List.pairwise_cons.mp hs₁).2 (List.pairwise_cons.mp hs₂).2
      (by rw [List.map_cons, List.nodup_cons] at hn; exact hn.2)
    rw [ht]

/-- Permuting the binding list permutes the builder's placement output (when
both runs succeed): the unrestricted contributions are the resolver
placements of the same filtered bindings, and a restricted binding's
contribution depends only on the order-invariant pass-1 key set. -/
theorem getAllClusterDecisions_placements_perm (env : K8sEnv) (inst : Policy)
    (pbs₁ pbs₂ : List PlacementBinding) (hp : pbs₁.Perm pbs₂)
    (m₁ : DecisionMap) (pls₁ : List Placement) (m₂ : DecisionMap)
    (pls₂ : List Placement)
    (h₁ : getAllClusterDecisions env inst pbs₁ = .ok (m₁, pls₁))
    (h₂ : getAllClusterDecisions env inst pbs₂ = .ok (m₂, pls₂)) :
    pls₁.Perm pls₂ := by
  cases hA : pass1 env inst pbs₁ [] [] with
  | error e =>
    rw [getAllClusterDecisions_of_pass1_err hA] at h₁
    exact absurd h₁ (by simp)
  | ok prA =>
    obtain ⟨mA, plsA⟩ := prA
    cases hB : pass1 env inst pbs₂ [] [] with
    | error e =>
      rw [getAllClusterDecisions_of_pass1_err hB] at h₂
      exact absurd h₂ (by simp)
    | ok prB =>
      obtain ⟨mB, plsB⟩ := prB
      have hspecA := pass1_spec env inst pbs₁ [] [] mA plsA
        (fun _ => False) (fun _ => False) hA
        (by intro d; simp [decKeys])
        (by intro d ov hov; simp [lookupDec] at hov)
        (fun _ f => f)
      have hspecB := pass1_spec env inst pbs₂ [] [] mB plsB
        (fun _ => False) (fun _ => False) hB
        (by intro d; simp [decKeys])
        (by intro d ov hov; simp [lookupDec] at hov)
        (fun _ f => f)
      have hmem : ∀ d, d ∈ decKeys mA ↔ d ∈ decKeys mB := by
        intro d
        rw [hspecA.1 d, hspecB.1 d]
        exact or_congr Iff.rfl (contributes_perm hp d)
      have hplsA := pass1_pls_eq env inst pbs₁ [] [] mA plsA hA
      have hplsB := pass1_pls_eq env inst pbs₂ [] [] mB plsB hB
      rw [List.nil_append] at hplsA hplsB
      have hpermP1 : plsA.Perm plsB := by
        rw [hplsA, hplsB]
        exact List.Perm.flatMap_right _ (hp.filter _)
      by_cases hmA : mA.isEmpty
      · have hmAnil : mA = [] := by
          cases mA
          · rfl
          · simp [List.isEmpty] at hmA
        have hmBnil : mB = [] := by
          apply List.eq_nil_iff_forall_not_mem.mpr
          intro p hpB
          have hk : p.1 ∈ decKeys mB := List.mem_map_of_mem Prod.fst hpB
          have h2 := (hmem p.1).mpr hk
          rw [hmAnil] at h2
          simp [decKeys] at h2
        subst hmAnil
        rw [hmBnil] at hB
        rw [getAllClusterDecisions_early_exit hA] at h₁
        rw [getAllClusterDecisions_early_exit hB] at h₂
        injection h₁ with h₁
        injection h₁ with h11 h12
        injection h₂ with h₂
        injection h₂ with h21 h22
        rw [← h12, ← h22]
        exact (sortPlacements_perm plsA).trans
          (hpermP1.trans (sortPlacements_perm plsB).symm)
      · have hmB : ¬ mB.isEmpty := by
          intro hmBe
          apply hmA
          have hmBnil : mB = [] := by
            cases mB
            · rfl
            · simp [List.isEmpty] at hmBe
          have hmAnil : mA = [] := by
            apply List.eq_nil_iff_forall_not_mem.mpr
            intro p hpA
            have hk : p.1 ∈ decKeys mA := List.mem_map_of_mem Prod.fst hpA
            have h2 := (hmem p.1).mp hk
            rw [hmBnil] at h2
            simp [decKeys] at h2
          rw [hmAnil]
          rfl
        cases h2A : pass2 env inst pbs₁ mA plsA with
        | error e =>
          rw [getAllClusterDecisions_of_pass2_err hA hmA h2A] at h₁
          exact absurd h₁ (by simp)
        | ok pr2A =>
          obtain ⟨m2A, pls2A⟩ := pr2A
          cases h2B : pass2 env inst pbs₂ mB plsB with
          | error e =>
            rw [getAllClusterDecisions_of_pass2_err hB hmB h2B] at h₂
            exact absurd h₂ (by simp)
          | ok pr2B =>
            obtain ⟨m2B, pls2B⟩ := pr2B
            rw [getAllClusterDecisions_of_pass2_ok hA hmA h2A] at h₁
            rw [getAllClusterDecisions_of_pass2_ok hB hmB h2B] at h₂
            injection h₁ with h₁
            injection h₁ with h11 h12
            injection h₂ with h₂
            injection h₂ with h21 h22
            have hpA := pass2_pls_eq env inst pbs₁ mA plsA m2A pls2A h2A
            have hpB := pass2_pls_eq env inst pbs₂ mB plsB m2B pls2B h2B
            have hfilB : pbs₂.filter (fun pb => (pb.subFilter == Restricted)
                && restrictedMatched env inst (decKeys mB) pb)
                = pbs₂.filter fun pb => (pb.subFilter == Restricted)
                  && restrictedMatched env inst (decKeys mA) pb :=
              List.filter_congr fun pb _ => by
                rw [restrictedMatched_congr env inst
                  (fun d => (hmem d).symm) pb]
            rw [hfilB] at hpB
            have hperm2 : pls2A.Perm pls2B := by
              rw [hpA, hpB]
              exact hpermP1.append (List.Perm.flatMap_right _ (hp.filter _))
            rw [← h12, ← h22]
            exact (sortPlacements_perm pls2A).trans
              (hperm2.trans (sortPlacements_perm pls2B).symm)

/-! ## Lemmas about the Per-Target Status Aggregator -/

theorem perClusterFold (env : K8sEnv) (inst : Policy) :
    ∀ (decs : List PlacementDecision) (acc : List CompliancePerClusterStatus)
      (e₀ : Option String),
      decs.foldl (perClusterStep env inst) (acc, e₀)
        = (acc ++ decs.map (perClusterEntry env inst),
            decs.foldl (fun a d =>
              match lookupErrOf env inst d with
              | some e => some e
              | none => a) e₀)
  | [], acc, e₀ => by simp
  | d :: decs, acc, e₀ => by
    rw [List.foldl_cons, List.foldl_cons]
    cases hg : env.getReplicatedPolicy (replicaKey inst d) with
    | found st =>
      have hstep : perClusterStep env inst (acc, e₀) d
          = (acc ++ [⟨st, d.clusterName, d.clusterNamespace⟩], e₀) := by
        unfold perClusterStep; rw [hg]
      have hent : perClusterEntry env inst d
          = ⟨st, d.clusterName, d.clusterNamespace⟩ := by
        unfold perClusterEntry; rw [hg]
      have herr : lookupErrOf env inst d = none := by
        unfold lookupErrOf; rw [hg]
      rw [hstep, perClusterFold env inst decs _ _, List.map_cons, hent, herr]
      simp
    | notFound =>
      have hstep : perClusterStep env inst (acc, e₀) d
          = (acc ++ [⟨"", d.clusterName, d.clusterNamespace⟩], e₀) := by
        unfold perClusterStep; rw [hg]
      have hent : perClusterEntry env inst d
          = ⟨"", d.clusterName, d.clusterNamespace⟩ := by
        unfold perClusterEntry; rw [hg]
      have herr : lookupErrOf env inst d = none := by
        unfold lookupErrOf; rw [hg]
      rw [hstep, perClusterFold env inst decs _ _, List.map_cons, hent, herr]
      simp
    | err e =>
      have hstep : perClusterStep env inst (acc, e₀) d
          = (acc ++ [⟨"", d.clusterName, d.clusterNamespace⟩], some e) := by
        unfold perClusterStep; rw [hg]
      have hent : perClusterEntry env inst d
          = ⟨"", d.clusterName, d.clusterNamespace⟩ := by
        unfold perClusterEntry; rw [hg]
      have herr : lookupErrOf env inst d = some e := by
        unfold lookupErrOf; rw [hg]
      rw [hstep, perClusterFold env inst decs _ _, List.map_cons, hent, herr]
      simp

theorem errFold_eq_getLast (f : PlacementDecision → Option String) :
    ∀ (l : List PlacementDecision) (e₀ : Option String),
      l.foldl (fun a d => match f d with | some e => some e | none => a) e₀
        = match (l.filterMap f).getLast? with
          | some e => some e
          | none => e₀
  | [], e₀ => rfl
  | d :: l, e₀ => by
    rw [List.foldl_cons, errFold_eq_getLast f l _]
    cases hf : f d with
    | none => rw [List.filterMap_cons, hf]
    | some e =>
      rw [List.filterMap_cons, hf]
      cases hl : l.filterMap f with
      | nil => rfl
      | cons x xs =>
        rw [List.getLast?_cons_cons]
        cases hgl : (x :: xs).getLast? with
        | some y => rfl
        | none => exact absurd hgl (by simp)

/-- Closed-form characterization of `calculatePerClusterStatus` for an enabled
policy: the entries are the per-decision entries sorted by cluster name, and
the returned error is the last lookup error in iteration order. -/
theorem calculatePerClusterStatus_spec (env : K8sEnv) (inst : Policy)
    (decs : List PlacementDecision) (h : inst.disabled = false) :
    calculatePerClusterStatus env inst decs =
      (sortStatuses (decs.map (perClusterEntry env inst)),
        (decs.filterMap (lookupErrOf env inst)).getLast?) := by
  unfold calculatePerClusterStatus
  rw [h]
  simp only [Bool.false_eq_true, if_false]
  rw [perClusterFold env inst decs [] none, errFold_eq_getLast]
  simp only [List.nil_append]
  cases (decs.filterMap (lookupErrOf env inst)).getLast? <;> rfl

theorem filterMap_congr_mem {α β : Type} (f g : α → Option β) :
    ∀ l : List α, (∀ a ∈ l, f a = g a) → l.filterMap f = l.filterMap g
  | [], _ => rfl
  | a :: l, h => by
    rw [List.filterMap_cons, List.filterMap_cons, h a (List.mem_cons_self a l),
      filterMap_congr_mem f g l fun a' ha' => h a' (List.mem_cons_of_mem _ ha')]

/-- The aggregator's output depends on the environment only through the
replica lookups at the decisions' replica keys. -/
theorem calculatePerClusterStatus_congr (env env' : K8sEnv) (inst : Policy)
    (decs : List PlacementDecision)
    (h : ∀ d ∈ decs, env.getReplicatedPolicy (replicaKey inst d)
        = env'.getReplicatedPolicy (replicaKey inst d)) :
    calculatePerClusterStatus env inst decs
      = calculatePerClusterStatus env' inst decs := by
  cases hdis : inst.disabled with
  | true => simp [calculatePerClusterStatus, hdis]
  | false =>
    rw [calculatePerClusterStatus_spec env inst decs hdis,
      calculatePerClusterStatus_spec env' inst decs hdis]
    have hent : ∀ d ∈ decs, perClusterEntry env inst d = perClusterEntry env' inst d := by
      intro d hd
      unfold perClusterEntry
      rw [h d hd]
    have herr : ∀ d ∈ decs, lookupErrOf env inst d = lookupErrOf env' inst d := by
      intro d hd
      unfold lookupErrOf
      rw [h d hd]
    rw [List.map_congr_left hent, filterMap_congr_mem _ _ decs herr]

/-- Permuting the (unspecified) iteration order of the decision set permutes
the aggregator's status list. -/
theorem calculatePerClusterStatus_perm (env : K8sEnv) (inst : Policy)
    (decs₁ decs₂ : List PlacementDecision) (hp : decs₁.Perm decs₂) :
    (calculatePerClusterStatus env inst decs₁).1.Perm
      (calculatePerClusterStatus env inst decs₂).1 := by
  cases hdis : inst.disabled with
  | true => simp [calculatePerClusterStatus, hdis]
  | false =>
    rw [calculatePerClusterStatus_spec env inst decs₁ hdis,
      calculatePerClusterStatus_spec env inst decs₂ hdis]
    exact ((sortStatuses_perm _).trans
      (hp.map (perClusterEntry env inst))).trans (sortStatuses_perm _).symm

/-! ## Concrete data for instantiating the theorems -/

/-! ## C1 -/

/-- **C1**: for every root policy and binding list, a target appears in the
decision map returned by `getAllClusterDecisions` only if at least one
unrestricted binding (`subFilter` not `Restricted`) resolved it; and for any
input whose bindings are all restricted, the result is the empty decision set
(with an empty placement list): restricted bindings never introduce targets. -/
theorem C1_restricted_never_introduces (env : K8sEnv) (inst : Policy)
    (pbs : List PlacementBinding) :
    (∀ m pls, getAllClusterDecisions env inst pbs = .ok (m, pls) →
      ∀ d, d ∈ decKeys m →
        ∃ pb ∈ pbs, pb.subFilter ≠ Restricted ∧
          ∃ ds ps, getPolicyPlacementDecisions env inst pb = .ok (ds, ps) ∧ d ∈ ds) ∧
    ((∀ pb ∈ pbs, pb.subFilter = Restricted) →
      getAllClusterDecisions env inst pbs = .ok ([], [])) := by
  constructor
  · intro m pls h d hd
    cases hp1 : pass1 env inst pbs [] [] with
    | error e =>
      rw [getAllClusterDecisions_of_pass1_err hp1] at h
      exact absurd h (by simp)
    | ok pr =>
      obtain ⟨m1, pls1⟩ := pr
      have hspec := pass1_spec env inst pbs [] [] m1 pls1
        (fun _ => False) (fun _ => False) hp1
        (by intro d'; simp [decKeys])
        (by intro d' ov hov; simp [lookupDec] at hov)
        (fun _ f => f)
      by_cases hm1 : m1.isEmpty
      · have hm1' : m1 = [] := by
          cases m1
          · rfl
          · simp [List.isEmpty] at hm1
        subst hm1'
        rw [getAllClusterDecisions_early_exit hp1] at h
        injection h with h
        injection h with h1 h2
        rw [← h1] at hd
        simp [decKeys] at hd
      · cases hp2 : pass2 env inst pbs m1 pls1 with
        | error e =>
          rw [getAllClusterDecisions_of_pass2_err hp1 hm1 hp2] at h
          exact absurd h (by simp)
        | ok pr2 =>
          obtain ⟨m2, pls2⟩ := pr2
          rw [getAllClusterDecisions_of_pass2_ok hp1 hm1 hp2] at h
          injection h with h
          injection h with h1 h2
          rw [← h1] at hd
          rw [pass2_keys env inst pbs m1 pls1 m2 pls2 hp2] at hd
          rcases (hspec.1 d).mp hd with hF | hcontrib
          · exact hF.elim
          · exact hcontrib
  · intro hall
    have hp1 := pass1_all_restricted env inst pbs [] [] hall
    rw [getAllClusterDecisions_early_exit hp1]
    rfl

/-- Witness for C1 at a concrete input: one unrestricted binding resolving
`clusterA` (first conjunct), and a single restricted binding yielding the
empty result (second conjunct). -/
theorem C1_restricted_never_introduces_witness :
    (∃ pb ∈ [sampleBinding], pb.subFilter ≠ Restricted ∧
      ∃ ds ps, getPolicyPlacementDecisions sampleEnv samplePolicy pb = .ok (ds, ps) ∧
        sampleDecision ∈ ds) ∧
    getAllClusterDecisions sampleEnv samplePolicy [sampleRestrictedBinding]
      = .ok ([], []) :=
  ⟨(C1_restricted_never_introduces sampleEnv samplePolicy [sampleBinding]).1
      [(sampleDecision, ⟨""⟩)] [{ placementBinding := "b1" }] (by rfl)
      sampleDecision (by decide),
    (C1_restricted_never_introduces sampleEnv samplePolicy
      [sampleRestrictedBinding]).2 (by decide)⟩

/-! ## C2 -/

theorem contributes_of_no_restricted (env : K8sEnv) (inst : Policy)
    (pbs : List PlacementBinding) (d : PlacementDecision)
    (hnr : ∀ pb ∈ pbs, pb.subFilter ≠ Restricted) :
    contributes env inst pbs d ↔
      ∃ pb ∈ pbs, ∃ ds ps,
        getPolicyPlacementDecisions env inst pb = .ok (ds, ps) ∧ d ∈ ds := by
  unfold contributes
  constructor
  · rintro ⟨pb, hpb, -, hrest⟩
    exact ⟨pb, hpb, hrest⟩
  · rintro ⟨pb, hpb, hrest⟩
    exact ⟨pb, hpb, hnr pb hpb, hrest⟩

theorem contributesEnforce_of_no_restricted (env : K8sEnv) (inst : Policy)
    (pbs : List PlacementBinding) (d : PlacementDecision)
    (hnr : ∀ pb ∈ pbs, pb.subFilter ≠ Restricted) :
    contributesEnforce env inst pbs d ↔
      ∃ pb ∈ pbs, (∃ ds ps,
        getPolicyPlacementDecisions env inst pb = .ok (ds, ps) ∧ d ∈ ds) ∧
        eqFold pb.bindingOverrides.remediationAction enforceStr = true := by
  unfold contributesEnforce
  constructor
  · rintro ⟨pb, hpb, -, hrest⟩
    exact ⟨pb, hpb, hrest⟩
  · rintro ⟨pb, hpb, hrest⟩
    exact ⟨pb, hpb, hnr pb hpb, hrest⟩

/-- **C2**: with no restricted bindings, the decision map returned by
`getAllClusterDecisions` has exactly the union of the targets returned by each
binding's resolver as its key set, and a target's stored override equals
`"enforce"` iff some binding that resolved it declares an override
remediation action equal-fold to `"Enforce"` (so an `"enforce"` override is
never downgraded by a later binding). -/
theorem C2_no_restricted_union_enforce (env : K8sEnv) (inst : Policy)
    (pbs : List PlacementBinding) (m : DecisionMap) (pls : List Placement)
    (hnr : ∀ pb ∈ pbs, pb.subFilter ≠ Restricted)
    (h : getAllClusterDecisions env inst pbs = .ok (m, pls)) :
    (∀ d, d ∈ decKeys m ↔
      ∃ pb ∈ pbs, ∃ ds ps,
        getPolicyPlacementDecisions env inst pb = .ok (ds, ps) ∧ d ∈ ds) ∧
    (∀ d ov, lookupDec m d = some ov →
      (ov.remediationAction = "enforce" ↔
        ∃ pb ∈ pbs, (∃ ds ps,
          getPolicyPlacementDecisions env inst pb = .ok (ds, ps) ∧ d ∈ ds) ∧
          eqFold pb.bindingOverrides.remediationAction enforceStr = true)) := by
  cases hp1 : pass1 env inst pbs [] [] with
  | error e =>
    rw [getAllClusterDecisions_of_pass1_err hp1] at h
    exact absurd h (by simp)
  | ok pr =>
    obtain ⟨m1, pls1⟩ := pr
    have hspec := pass1_spec env inst pbs [] [] m1 pls1
      (fun _ => False) (fun _ => False) hp1
      (by intro d'; simp [decKeys])
      (by intro d' ov hov; simp [lookupDec] at hov)
      (fun _ f => f)
    have hm1m : m = m1 := by
      by_cases hm1 : m1.isEmpty
      · have hm1' : m1 = [] := by
          cases m1
          · rfl
          · simp [List.isEmpty] at hm1
        subst hm1'
        rw [getAllClusterDecisions_early_exit hp1] at h
        injection h with h
        injection h with h1 h2
        exact h1.symm
      · have hp2 := pass2_no_restricted env inst pbs m1 pls1 hnr
        rw [getAllClusterDecisions_of_pass2_ok hp1 hm1 hp2] at h
        injection h with h
        injection h with h1 h2
        exact h1.symm
    subst hm1m
    constructor
    · intro d
      rw [hspec.1 d, ← contributes_of_no_restricted env inst pbs d hnr]
      simp
    · intro d ov hov
      rw [hspec.2 d ov hov,
        ← contributesEnforce_of_no_restricted env inst pbs d hnr]
      simp

/-- Witness for C2 at a concrete input: two unrestricted bindings both
resolving `clusterA`, the second with override `"Enforce"`; the resulting map
holds `clusterA` with override `"enforce"`, and both iffs hold there. -/
theorem C2_no_restricted_union_enforce_witness :
    (sampleDecision ∈ decKeys [(sampleDecision, ⟨"enforce"⟩)] ↔
      ∃ pb ∈ [sampleBinding, sampleEnforceBinding], ∃ ds ps,
        getPolicyPlacementDecisions sampleEnv samplePolicy pb = .ok (ds, ps) ∧
          sampleDecision ∈ ds) ∧
    ((⟨"enforce"⟩ : BindingOverrides).remediationAction = "enforce" ↔
      ∃ pb ∈ [sampleBinding, sampleEnforceBinding], (∃ ds ps,
        getPolicyPlacementDecisions sampleEnv samplePolicy pb = .ok (ds, ps) ∧
          sampleDecision ∈ ds) ∧
        eqFold pb.bindingOverrides.remediationAction enforceStr = true) :=
  ⟨(C2_no_restricted_union_enforce sampleEnv samplePolicy
      [sampleBinding, sampleEnforceBinding] [(sampleDecision, ⟨"enforce"⟩)]
      [{ placementBinding := "b1" }, { placementBinding := "b2" }]
      (by decide) (by rfl)).1 sampleDecision,
    (C2_no_restricted_union_enforce sampleEnv samplePolicy
      [sampleBinding, sampleEnforceBinding] [(sampleDecision, ⟨"enforce"⟩)]
      [{ placementBinding := "b1" }, { placementBinding := "b2" }]
      (by decide) (by rfl)).2 sampleDecision ⟨"enforce"⟩ (by rfl)⟩

/-! ## C6 -/

/-- **C6**: if pass 1 leaves the running target map empty, the builder
immediately returns the empty decision set together with the already-collected
placement records sorted by binding name, and the result coincides with the
result on the input with every restricted binding removed — so no restricted
binding's resolver output matters and no restricted binding contributes
placement records. -/
theorem C6_early_exit_skips_pass2 (env : K8sEnv) (inst : Policy)
    (pbs : List PlacementBinding) (pls1 : List Placement)
    (h : pass1 env inst pbs [] [] = .ok ([], pls1)) :
    getAllClusterDecisions env inst pbs = .ok ([], sortPlacements pls1) ∧
    getAllClusterDecisions env inst pbs
      = getAllClusterDecisions env inst
          (pbs.filter fun pb => pb.subFilter != Restricted) := by
  have h1 := getAllClusterDecisions_early_exit h
  refine ⟨h1, ?_⟩
  have hf : pass1 env inst (pbs.filter fun pb => pb.subFilter != Restricted) [] []
      = .ok ([], pls1) := by
    rw [pass1_filter_eq env inst pbs [] []]
    exact h
  rw [h1, getAllClusterDecisions_early_exit hf]

/-- Witness for C6 at a concrete input: a single restricted binding whose
resolver would fail is never consulted — the build still succeeds with an
empty result, identical to the build over no bindings at all. -/
theorem C6_early_exit_skips_pass2_witness :
    getAllClusterDecisions sampleErrEnv samplePolicy [sampleRestrictedBinding]
      = .ok ([], sortPlacements []) ∧
    getAllClusterDecisions sampleErrEnv samplePolicy [sampleRestrictedBinding]
      = getAllClusterDecisions sampleErrEnv samplePolicy
          ([sampleRestrictedBinding].filter fun pb => pb.subFilter != Restricted) :=
  C6_early_exit_skips_pass2 sampleErrEnv samplePolicy [sampleRestrictedBinding]
    [] (by rfl)

/-! ## C7 -/

/-- **C7**: a Binding Resolver error aborts the whole build fail-fast: if any
unrestricted binding's resolver errors, `getAllClusterDecisions` returns a
bare error (the embedding's error result carries no partial decision map and
no partial placement list, mirroring the Go `return nil, nil, err`); and when
pass 2 runs (pass 1 produced a nonempty map), a restricted binding's resolver
error likewise aborts the whole build. -/
theorem C7_resolver_error_fail_fast (env : K8sEnv) (inst : Policy)
    (pbs : List PlacementBinding) :
    ((∃ pb ∈ pbs, pb.subFilter ≠ Restricted ∧
        ∃ e, getPolicyPlacementDecisions env inst pb = .error e) →
      ∃ e', getAllClusterDecisions env inst pbs = .error e') ∧
    (∀ m pls1, pass1 env inst pbs [] [] = .ok (m, pls1) → ¬ m.isEmpty →
      (∃ pb ∈ pbs, pb.subFilter = Restricted ∧
        ∃ e, getPolicyPlacementDecisions env inst pb = .error e) →
      ∃ e', getAllClusterDecisions env inst pbs = .error e') := by
  constructor
  · rintro ⟨pb, hpb, hres, herr⟩
    obtain ⟨e', he'⟩ :=
      pass1_error_of_resolver_error env inst pbs [] [] pb hpb hres herr
    exact ⟨e', getAllClusterDecisions_of_pass1_err he'⟩
  · rintro m pls1 hp1 hm ⟨pb, hpb, hres, herr⟩
    obtain ⟨e', he'⟩ :=
      pass2_error_of_resolver_error env inst pbs m pls1 pb hpb hres herr
    exact ⟨e', getAllClusterDecisions_of_pass2_err hp1 hm he'⟩

/-- Witness for C7 at concrete inputs: a failing decision lookup in pass 1
aborts the build, and an invalid restricted binding aborts pass 2. -/
theorem C7_resolver_error_fail_fast_witness :
    (∃ e', getAllClusterDecisions sampleErrEnv samplePolicy [sampleBinding]
      = .error e') ∧
    (∃ e', getAllClusterDecisions sampleEnv samplePolicy
      [sampleBinding, sampleInvalidRestrictedBinding] = .error e') :=
  ⟨(C7_resolver_error_fail_fast sampleErrEnv samplePolicy [sampleBinding]).1
      ⟨sampleBinding, by decide, by decide, "boom", by rfl⟩,
    (C7_resolver_error_fail_fast sampleEnv samplePolicy
        [sampleBinding, sampleInvalidRestrictedBinding]).2
      [(sampleDecision, ⟨""⟩)] [{ placementBinding := "b1" }] (by rfl) (by decide)
      ⟨sampleInvalidRestrictedBinding, by decide, by decide,
        "placement binding b3/ns reference is not valid", by rfl⟩⟩

/-! ## C5 -/

/-- **C5** (amended): if the root policy's disabled flag is set then every
successful build returns the empty decision map, the aggregator returns no
entries, and the placement records of every unrestricted binding whose
subjects match the policy are still present in the output; restricted
bindings contribute no records in this case, because the empty decision set
makes the builder skip pass 2. -/
theorem C5_disabled_amended (env : K8sEnv) (inst : Policy)
    (pbs : List PlacementBinding) (hdis : inst.disabled = true) :
    (∀ m pls, getAllClusterDecisions env inst pbs = .ok (m, pls) →
      m = [] ∧
      ∀ pb ∈ pbs, pb.subFilter ≠ Restricted →
        ∀ ds ps, getPolicyPlacementDecisions env inst pb = .ok (ds, ps) →
          ∀ r ∈ ps, r ∈ pls) ∧
    (∀ decs, calculatePerClusterStatus env inst decs = ([], none)) := by
  constructor
  · intro m pls h
    cases hp1 : pass1 env inst pbs [] [] with
    | error e =>
      rw [getAllClusterDecisions_of_pass1_err hp1] at h
      exact absurd h (by simp)
    | ok pr =>
      obtain ⟨m1, pls1⟩ := pr
      have hm1 : m1 = [] := pass1_disabled env inst hdis pbs [] [] m1 pls1 hp1
      subst hm1
      rw [getAllClusterDecisions_early_exit hp1] at h
      injection h with h
      injection h with h1 h2
      constructor
      · exact h1.symm
      · intro pb hpb hres ds ps hok r hr
        have hr1 : r ∈ pls1 :=
          pass1_placements env inst pbs [] [] [] pls1 hp1 pb hpb hres ds ps hok r hr
        rw [← h2]
        exact mem_sortPlacements.mpr hr1
  · intro decs
    simp [calculatePerClusterStatus, hdis]

/-- Counterexample to C5 as stated: with the disabled sample policy and one
restricted binding whose subject matches the policy, the Binding Resolver
produces a placement record for the binding, yet the builder's output contains
no placement records at all — records of matching restricted bindings are not
produced when the policy is disabled. -/
theorem C5_disabled_counterexample :
    getPolicyPlacementDecisions sampleEnv sampleDisabledPolicy
        sampleRestrictedBinding
      = .ok ([], [{ placementBinding := "b3" }]) ∧
    getAllClusterDecisions sampleEnv sampleDisabledPolicy
        [sampleRestrictedBinding]
      = .ok ([], []) :=
  ⟨rfl, rfl⟩

/-- Witness for C5 (amended) at a concrete input: one unrestricted matching
binding under the disabled policy — the decision map is empty, the record
survives, and the aggregator returns nothing. -/
theorem C5_disabled_amended_witness :
    (([] : DecisionMap) = [] ∧
      ∀ pb ∈ [sampleBinding], pb.subFilter ≠ Restricted →
        ∀ ds ps,
          getPolicyPlacementDecisions sampleEnv sampleDisabledPolicy pb
            = .ok (ds, ps) →
          ∀ r ∈ ps, r ∈ [({ placementBinding := "b1" } : Placement)]) ∧
    calculatePerClusterStatus sampleEnv sampleDisabledPolicy [sampleDecision]
      = ([], none) :=
  ⟨(C5_disabled_amended sampleEnv sampleDisabledPolicy [sampleBinding] rfl).1
      [] [{ placementBinding := "b1" }] (by rfl),
    (C5_disabled_amended sampleEnv sampleDisabledPolicy [sampleBinding] rfl).2
      [sampleDecision]⟩

/-! ## C3 -/

/-- **C3** (amended): every successful build's placement-record list is sorted
ascending by `placementBinding` name, and the aggregator's status list is
sorted ascending by `clusterName`.  Each output is determined up to
permutation by its input set — permuting the decision-set iteration order
permutes the status list, and permuting the binding list permutes the
placement list —, and each output is byte-identical (deterministic) whenever
its sort keys are pairwise distinct: cluster names for statuses, binding
names for placement records.  With duplicate sort keys the relative order of
tied entries follows the unspecified input/iteration order, so full
determinism as originally claimed fails. -/
theorem C3_sorted_outputs_amended (env : K8sEnv) (inst : Policy)
    (pbs₁ pbs₂ : List PlacementBinding) (decs₁ decs₂ : List PlacementDecision) :
    (∀ m pls, getAllClusterDecisions env inst pbs₁ = .ok (m, pls) →
      pls.Pairwise (keyLE Placement.placementBinding)) ∧
    ((calculatePerClusterStatus env inst decs₁).1.Pairwise
      (keyLE CompliancePerClusterStatus.clusterName)) ∧
    (decs₁.Perm decs₂ →
      (calculatePerClusterStatus env inst decs₁).1.Perm
        (calculatePerClusterStatus env inst decs₂).1) ∧
    (decs₁.Perm decs₂ →
      ((calculatePerClusterStatus env inst decs₁).1.map
          CompliancePerClusterStatus.clusterName).Nodup →
      (calculatePerClusterStatus env inst decs₁).1
        = (calculatePerClusterStatus env inst decs₂).1) ∧
    (pbs₁.Perm pbs₂ → ∀ m₁ pls₁ m₂ pls₂,
      getAllClusterDecisions env inst pbs₁ = .ok (m₁, pls₁) →
      getAllClusterDecisions env inst pbs₂ = .ok (m₂, pls₂) →
      pls₁.Perm pls₂) ∧
    (pbs₁.Perm pbs₂ → ∀ m₁ pls₁ m₂ pls₂,
      getAllClusterDecisions env inst pbs₁ = .ok (m₁, pls₁) →
      getAllClusterDecisions env inst pbs₂ = .ok (m₂, pls₂) →
      (pls₁.map Placement.placementBinding).Nodup →
      pls₁ = pls₂) := by
  have hsorted : ∀ decs : List PlacementDecision,
      (calculatePerClusterStatus env inst decs).1.Pairwise
        (keyLE CompliancePerClusterStatus.clusterName) := by
    intro decs
    cases hdis : inst.disabled with
    | true => simp [calculatePerClusterStatus, hdis]
    | false =>
      rw [calculatePerClusterStatus_spec env inst decs hdis]
      exact sortStatuses_sorted _
  have hsortedP : ∀ (pbs : List PlacementBinding) (m : DecisionMap)
      (pls : List Placement),
      getAllClusterDecisions env inst pbs = .ok (m, pls) →
      pls.Pairwise (keyLE Placement.placementBinding) := by
    intro pbs m pls h
    cases hp1 : pass1 env inst pbs [] [] with
    | error e =>
      rw [getAllClusterDecisions_of_pass1_err hp1] at h
      exact absurd h (by simp)
    | ok pr =>
      obtain ⟨m1, pls1⟩ := pr
      by_cases hm1 : m1.isEmpty
      · have hm1' : m1 = [] := by
          cases m1
          · rfl
          · simp [List.isEmpty] at hm1
        subst hm1'
        rw [getAllClusterDecisions_early_exit hp1] at h
        injection h with h
        injection h with h1 h2
        rw [← h2]
        exact sortPlacements_sorted pls1
      · cases hp2 : pass2 env inst pbs m1 pls1 with
        | error e =>
          rw [getAllClusterDecisions_of_pass2_err hp1 hm1 hp2] at h
          exact absurd h (by simp)
        | ok pr2 =>
          obtain ⟨m2, pls2⟩ := pr2
          rw [getAllClusterDecisions_of_pass2_ok hp1 hm1 hp2] at h
          injection h with h
          injection h with h1 h2
          rw [← h2]
          exact sortPlacements_sorted pls2
  refine ⟨fun m pls h => hsortedP pbs₁ m pls h, hsorted decs₁,
    calculatePerClusterStatus_perm env inst decs₁ decs₂,
    fun hp hn => ?_, fun hp m₁ pls₁ m₂ pls₂ h₁ h₂ =>
      getAllClusterDecisions_placements_perm env inst pbs₁ pbs₂ hp
        m₁ pls₁ m₂ pls₂ h₁ h₂,
    fun hp m₁ pls₁ m₂ pls₂ h₁ h₂ hn => ?_⟩
  · exact eq_of_perm_sorted_nodup CompliancePerClusterStatus.clusterName
      _ _ (calculatePerClusterStatus_perm env inst decs₁ decs₂ hp)
      (hsorted decs₁) (hsorted decs₂) hn
  · exact eq_of_perm_sorted_nodup Placement.placementBinding pls₁ pls₂
      (getAllClusterDecisions_placements_perm env inst pbs₁ pbs₂ hp
        m₁ pls₁ m₂ pls₂ h₁ h₂)
      (hsortedP pbs₁ m₁ pls₁ h₁) (hsortedP pbs₂ m₂ pls₂ h₂) hn

/-- Counterexample to C3 as stated: with two decisions sharing a cluster name,
permuting the (unspecified) decision-set iteration order changes the
aggregator's output list — the output ordering is not deterministic across
permuted input orderings. -/
theorem C3_sorted_outputs_counterexample :
    List.Perm [dupDecision1, dupDecision2] [dupDecision2, dupDecision1] ∧
    (calculatePerClusterStatus sampleEnv samplePolicy
        [dupDecision1, dupDecision2]).1
      ≠ (calculatePerClusterStatus sampleEnv samplePolicy
        [dupDecision2, dupDecision1]).1 :=
  ⟨List.Perm.swap dupDecision2 dupDecision1 [], by decide⟩

/-- Witness for C3 (amended) at concrete inputs: sorted placement output for
one binding, sorted status output, exact status equality under distinct
cluster names, and exact placement equality across a permuted two-binding
input with distinct binding names. -/
theorem C3_sorted_outputs_amended_witness :
    ([({ placementBinding := "b1" } : Placement)].Pairwise
      (keyLE Placement.placementBinding)) ∧
    ((calculatePerClusterStatus sampleEnv samplePolicy
      [sampleDecision]).1.Pairwise
        (keyLE CompliancePerClusterStatus.clusterName)) ∧
    ((calculatePerClusterStatus sampleEnv samplePolicy
        [sampleDecision, dupDecision1]).1
      = (calculatePerClusterStatus sampleEnv samplePolicy
        [dupDecision1, sampleDecision]).1) ∧
    ([{ placementBinding := "b1" }, { placementBinding := "b2" }]
      : List Placement)
      = [{ placementBinding := "b1" }, { placementBinding := "b2" }] :=
  ⟨(C3_sorted_outputs_amended sampleEnv samplePolicy [sampleBinding]
      [sampleBinding] [sampleDecision] [sampleDecision]).1
      [(sampleDecision, ⟨""⟩)] [{ placementBinding := "b1" }] (by rfl),
    (C3_sorted_outputs_amended sampleEnv samplePolicy [sampleBinding]
      [sampleBinding] [sampleDecision] [sampleDecision]).2.1,
    (C3_sorted_outputs_amended sampleEnv samplePolicy [sampleBinding]
      [sampleBinding] [sampleDecision, dupDecision1]
      [dupDecision1, sampleDecision]).2.2.2.1
      (List.Perm.swap dupDecision1 sampleDecision []) (by decide),
    (C3_sorted_outputs_amended sampleEnv samplePolicy
      [sampleBinding, sampleEnforceBinding]
      [sampleEnforceBinding, sampleBinding] [] []).2.2.2.2.2
      (List.Perm.swap sampleEnforceBinding sampleBinding [])
      [(sampleDecision, ⟨"enforce"⟩)]
      [{ placementBinding := "b1" }, { placementBinding := "b2" }]
      [(sampleDecision, ⟨"enforce"⟩)]
      [{ placementBinding := "b1" }, { placementBinding := "b2" }]
      (by rfl) (by rfl) (by decide)⟩

/-! ## C4 -/

/-- **C4** (amended): for an enabled policy, the aggregator's output is
exactly — per decision — an appended entry carrying the replica's compliance
state on success and the empty compliance state on not-found or on any other
lookup error (processing is never aborted), and the returned error is the
*last* non-not-found lookup error in iteration order (the Go code overwrites
`lookupErr` on every failure), not the first. -/
theorem C4_aggregation_amended (env : K8sEnv) (inst : Policy)
    (decs : List PlacementDecision) (h : inst.disabled = false) :
    calculatePerClusterStatus env inst decs =
      (sortStatuses (decs.map (perClusterEntry env inst)),
        (decs.filterMap (lookupErrOf env inst)).getLast?) ∧
    (∀ d, env.getReplicatedPolicy (replicaKey inst d) = .notFound →
      perClusterEntry env inst d = ⟨"", d.clusterName, d.clusterNamespace⟩ ∧
        lookupErrOf env inst d = none) ∧
    (∀ d e, env.getReplicatedPolicy (replicaKey inst d) = .err e →
      perClusterEntry env inst d = ⟨"", d.clusterName, d.clusterNamespace⟩ ∧
        lookupErrOf env inst d = some e) ∧
    (∀ d st, env.getReplicatedPolicy (replicaKey inst d) = .found st →
      perClusterEntry env inst d = ⟨st, d.clusterName, d.clusterNamespace⟩ ∧
        lookupErrOf env inst d = none) := by
  refine ⟨calculatePerClusterStatus_spec env inst decs h, ?_, ?_, ?_⟩
  · intro d hd
    unfold perClusterEntry lookupErrOf
    rw [hd]
    exact ⟨rfl, rfl⟩
  · intro d e hd
    unfold perClusterEntry lookupErrOf
    rw [hd]
    exact ⟨rfl, rfl⟩
  · intro d st hd
    unfold perClusterEntry lookupErrOf
    rw [hd]
    exact ⟨rfl, rfl⟩

/-- Counterexample to C4 as stated: with two failing replica lookups the
aggregator returns the error of the *second* (last) failing target in
iteration order, not the first one encountered. -/
theorem C4_aggregation_counterexample :
    lookupErrOf doubleErrEnv samplePolicy dupDecision1 = some "e1" ∧
    (calculatePerClusterStatus doubleErrEnv samplePolicy
      [dupDecision1, dupDecision2]).2 = some "e2" ∧
    (some "e2" : Option String) ≠ some "e1" :=
  ⟨rfl, rfl, by decide⟩

/-- Witness for C4 (amended) at a concrete input with two failing lookups. -/
theorem C4_aggregation_amended_witness :
    calculatePerClusterStatus doubleErrEnv samplePolicy
        [dupDecision1, dupDecision2] =
      (sortStatuses ([dupDecision1, dupDecision2].map
        (perClusterEntry doubleErrEnv samplePolicy)),
        ([dupDecision1, dupDecision2].filterMap
          (lookupErrOf doubleErrEnv samplePolicy)).getLast?) :=
  (C4_aggregation_amended doubleErrEnv samplePolicy
    [dupDecision1, dupDecision2] rfl).1

/-! ## C8 -/

/-- **C8**: for every target, the aggregator reads the replica object exactly
at the identity `{namespace: dec.clusterNamespace,
name: rootNamespace ++ "." ++ rootName}`: the lookup key is definitionally
that pair, and the aggregator's output is unchanged under any environment
that agrees with the original precisely on those keys. -/
theorem C8_replica_naming (env env' : K8sEnv) (inst : Policy)
    (decs : List PlacementDecision) :
    (∀ d : PlacementDecision,
      replicaKey inst d = ⟨d.clusterNamespace, inst.ns ++ "." ++ inst.name⟩) ∧
    ((∀ d ∈ decs,
        env.getReplicatedPolicy ⟨d.clusterNamespace, inst.ns ++ "." ++ inst.name⟩
          = env'.getReplicatedPolicy
              ⟨d.clusterNamespace, inst.ns ++ "." ++ inst.name⟩) →
      calculatePerClusterStatus env inst decs
        = calculatePerClusterStatus env' inst decs) :=
  ⟨fun _ => rfl,
    fun hag => calculatePerClusterStatus_congr env env' inst decs
      fun d hd => hag d hd⟩

/-- Witness for C8 at a concrete input: two environments agreeing only at the
replica key of `sampleDecision` produce identical aggregator output. -/
theorem C8_replica_naming_witness :
    calculatePerClusterStatus sampleEnv samplePolicy [sampleDecision]
      = calculatePerClusterStatus sampleEnvVariant samplePolicy [sampleDecision] :=
  (C8_replica_naming sampleEnv sampleEnvVariant samplePolicy [sampleDecision]).2
    (by decide)

/-! ## C10 -/

/-- **C10**: whenever decision computation fails inside `rootStatusUpdate`
(the binding listing or the decision-set build reported an error), the
function attempts no status write and returns exactly the fixed message
`"could not get the placement decisions"`, for every underlying error — the
original error is discarded, not wrapped. -/
theorem C10_fixed_error_message (env : WriterEnv) (p : Policy) (e : String)
    (h : (getDecisions env p).2.2 = some e) :
    rootStatusUpdate env p
      = ([], .error "could not get the placement decisions") := by
  unfold rootStatusUpdate
  rcases hg : getDecisions env p with ⟨pls, decs, derr⟩
  have h' : derr = some e := by
    rw [hg] at h
    exact h
  subst h'
  rfl

/-- Witness for C10 at a concrete input: a failed binding listing yields no
write and the fixed message, with the original error discarded. -/
theorem C10_fixed_error_message_witness :
    rootStatusUpdate sampleWriterEnv samplePolicy
      = ([], .error "could not get the placement decisions") :=
  C10_fixed_error_message sampleWriterEnv samplePolicy "list failure" (by rfl)

end RootPolicyStatus
